import Mathlib

/-!
Verification of the `Intermediary` line-shaping pass of rubyfmt
(`src/librubyfmt/src/intermediary.rs`).

The Rust code is shallowly embedded: `Vec<ConcreteLineToken>` becomes
`List ConcreteLineToken`, in-place mutation becomes explicit state passing,
and operations that can panic return `Option` (`none` models a panic:
`Vec::insert` with an index greater than the length, or indexing out of
bounds). Release-build semantics are modelled: the `debug_assertions`-gated
checks are compiled out, and `usize` subtraction wraps (see `getWrapSub`).

`LineMetadata` and the token-classification predicates live in
`line_metadata.rs` / `line_tokens.rs`, which are not among the sources under
verification; those definitions are modelled from the spec and are marked
as such in their doc comments.
-/

namespace Rubyfmt

/-- Token kinds handled by `Intermediary::push` in `intermediary.rs`.
`Other` stands for all further `ConcreteLineToken` variants of
`line_tokens.rs`, which `push` treats uniformly through its `_ => {}` arm;
`Comma` and `Space` are singled out because the spec classifies them as
single-line breakable garbage. -/
inductive ConcreteLineToken where
  | HardNewLine
  | Indent (depth : Nat)
  | DirectPart (part : String)
  | Comment (contents : String)
  | ModuleKeyword
  | ClassKeyword
  | DoKeyword
  | DefKeyword
  | End
  | ConditionalKeyword (contents : String)
  | Comma
  | Space
  | Other (contents : String)
  deriving DecidableEq

namespace ConcreteLineToken

/-- Modelled from the spec: the classification query "is this an indentation
marker?" used by the line-initial `require` detection; `line_tokens.rs` is not
among the sources under verification. -/
def is_indent : ConcreteLineToken → Bool
  | Indent _ => true
  | _ => false

/-- Modelled from the spec: disposable single-line-breakable filler is a
trailing comma, spacing, or an empty literal fragment; `line_tokens.rs` is
not among the sources under verification. -/
def is_single_line_breakable_garbage : ConcreteLineToken → Bool
  | Comma => true
  | Space => true
  | DirectPart part => part == ""
  | _ => false

/-- Recognizer for the `HardNewLine` variant. -/
def isHardNewLine : ConcreteLineToken → Bool
  | HardNewLine => true
  | _ => false

end ConcreteLineToken

/-- Modelled from the spec: the per-logical-line fact sheet of
`line_metadata.rs`, which is not among the sources under verification. -/
structure LineMetadata where
  has_require : Bool
  has_end : Bool
  has_def : Bool
  has_conditional : Bool
  has_do_keyword : Bool
  indent_level : Option Nat
  gets_indented : Bool
  deriving DecidableEq

namespace LineMetadata

/-- Modelled from the spec: a fresh, empty per-line fact sheet. -/
def new : LineMetadata :=
  ⟨false, false, false, false, false, none, false⟩

/-- Modelled from the spec. -/
def set_has_require (m : LineMetadata) : LineMetadata := { m with has_require := true }

/-- Modelled from the spec. -/
def set_has_end (m : LineMetadata) : LineMetadata := { m with has_end := true }

/-- Modelled from the spec. -/
def set_has_def (m : LineMetadata) : LineMetadata := { m with has_def := true }

/-- Modelled from the spec. -/
def set_has_conditional (m : LineMetadata) : LineMetadata := { m with has_conditional := true }

/-- Modelled from the spec. -/
def set_has_do_keyword (m : LineMetadata) : LineMetadata := { m with has_do_keyword := true }

/-- Modelled from the spec. -/
def set_gets_indented (m : LineMetadata) : LineMetadata := { m with gets_indented := true }

/-- Modelled from the spec: records the depth observed via an `Indent` token
belonging to this line. -/
def observe_indent_level (m : LineMetadata) (depth : Nat) : LineMetadata :=
  { m with indent_level := some depth }

/-- Modelled from the spec (minimal interpretation named in its section 9):
true when the line represents a just-closed conditional or do-block. -/
def wants_spacer_for_conditional (m : LineMetadata) : Bool :=
  m.has_end && (m.has_conditional || m.has_do_keyword)

/-- Modelled from the spec: strict depth increase between the previous and the
current line, false when either depth was not recorded. -/
def indent_level_increases_between (prev current : LineMetadata) : Bool :=
  match prev.indent_level, current.indent_level with
  | some a, some b => decide (a < b)
  | _, _ => false

end LineMetadata

/-- Models `Vec::insert(i, a)`: `none` is the panic on `i > len`. -/
def vecInsert {α : Type} : List α → Nat → α → Option (List α)
  | l, 0, a => some (a :: l)
  | [], _ + 1, _ => none
  | x :: l, i + 1, a => (vecInsert l i a).map (fun t => x :: t)

/-- Models `Vec::remove(i)`: `none` is the panic on `i >= len`. -/
def vecRemove {α : Type} : List α → Nat → Option (List α)
  | [], _ => none
  | _ :: l, 0 => some l
  | x :: l, i + 1 => (vecRemove l i).map (fun t => x :: t)

/-- Models the release-mode Rust expression `tokens.get(a - b)` where the
`usize` subtraction may wrap: when `a < b` the wrapped index is at least
`2^64 - b`, beyond any real vector's length, so `Vec::get` returns `None`;
otherwise it is the plain lookup at `a - b`. -/
def getWrapSub (l : List ConcreteLineToken) (a b : Nat) : Option ConcreteLineToken :=
  if a < b then none else l[a - b]?

/-- Lifts `isHardNewLine` over the `Option` returned by `Vec::get`, to express
Rust patterns `Some(&ConcreteLineToken::HardNewLine)`. -/
def optIsHNL : Option ConcreteLineToken → Bool
  | some t => t.isHardNewLine
  | none => false

/-- Lifts `is_indent` over `Option`, to express `Some(&Indent { .. })`. -/
def optIsIndent : Option ConcreteLineToken → Bool
  | some t => t.is_indent
  | none => false

/-- The diagnostic reason tags of `intermediary.rs`; they have no effect on
behavior. -/
inductive BlanklineReason where
  | ComesAfterEnd
  | Conditional
  | ClassOrModule
  | DoKeyword
  | EndOfRequireBlock
  | CommentAfterEnd
  deriving DecidableEq

/-- The buffer manager of `intermediary.rs`. -/
structure Intermediary where
  tokens : List ConcreteLineToken
  index_of_last_hard_newline : Nat
  current_line_metadata : LineMetadata
  previous_line_metadata : Option LineMetadata
  deriving DecidableEq

namespace Intermediary

/-- `Intermediary::new`. -/
def new : Intermediary :=
  { tokens := []
    index_of_last_hard_newline := 0
    current_line_metadata := LineMetadata.new
    previous_line_metadata := none }

/-- `Intermediary::len`. -/
def len (s : Intermediary) : Nat := s.tokens.length

/-- `Intermediary::last_4`: the four most recently appended tokens, oldest
first, or `none` when fewer than four tokens are buffered. -/
def last_4 (s : Intermediary) :
    Option (ConcreteLineToken × ConcreteLineToken × ConcreteLineToken × ConcreteLineToken) :=
  if s.len < 4 then none
  else
    match s.tokens[s.len - 4]?, s.tokens[s.len - 3]?, s.tokens[s.len - 2]?, s.tokens[s.len - 1]? with
    | some a, some b, some c, some d => some (a, b, c, d)
    | _, _, _, _ => none

/-- `Intermediary::insert_trailing_blankline`. The source matches on the
triple `(get(i-2), get(i-1), get(i))` at `i = index_of_last_hard_newline`:
arm one is `(Some(HardNewLine), Some(Indent{..}), Some(HardNewLine))`, arm
two is `(_, Some(HardNewLine), Some(HardNewLine))`, both no-ops; the default
arm inserts a `HardNewLine` at `i` and increments the index. The two no-op
arms are rendered here as one boolean disjunction. `none` models the
`Vec::insert` panic when the index exceeds the buffer length. -/
def insert_trailing_blankline (s : Intermediary) (_bl : BlanklineReason) : Option Intermediary :=
  let g2 := getWrapSub s.tokens s.index_of_last_hard_newline 2
  let g1 := getWrapSub s.tokens s.index_of_last_hard_newline 1
  let g0 := s.tokens[s.index_of_last_hard_newline]?
  if (optIsHNL g2 && optIsIndent g1 && optIsHNL g0) || (optIsHNL g1 && optIsHNL g0) then
    some s
  else
    (vecInsert s.tokens s.index_of_last_hard_newline .HardNewLine).map fun t =>
      { s with tokens := t, index_of_last_hard_newline := s.index_of_last_hard_newline + 1 }

/-- The guard condition of the `EndOfRequireBlock` insertion in
`Intermediary::push`'s `HardNewLine` arm, evaluated on the pre-swap
current/previous metadata pair. -/
def requireCond (s : Intermediary) : Bool :=
  match s.previous_line_metadata with
  | some prev => !s.current_line_metadata.has_require && prev.has_require
  | none => false

/-- The tail of `Intermediary::push`'s `HardNewLine` arm: freeze the current
metadata into the previous slot, point `index_of_last_hard_newline` at the
buffer length before this push, then either suppress the duplicate newline
(when the two preceding slots already hold `HardNewLine`) or append it.
Because the index has just been set to the buffer length, the source's
lookups at `index - 2` and `index - 1` are written `length - 2` and
`length - 1`; they are guarded by `2 <= length`, so plain `Nat` subtraction
agrees with `usize`. -/
def newlineClose (s : Intermediary) : Intermediary :=
  if 2 ≤ s.tokens.length then
    if optIsHNL (s.tokens[s.tokens.length - 2]?) && optIsHNL (s.tokens[s.tokens.length - 1]?) then
      { s with
        previous_line_metadata := some s.current_line_metadata
        current_line_metadata := LineMetadata.new
        index_of_last_hard_newline := s.tokens.length - 1 }
    else
      { s with
        previous_line_metadata := some s.current_line_metadata
        current_line_metadata := LineMetadata.new
        index_of_last_hard_newline := s.tokens.length
        tokens := s.tokens ++ [.HardNewLine] }
  else
    { s with
      previous_line_metadata := some s.current_line_metadata
      current_line_metadata := LineMetadata.new
      index_of_last_hard_newline := s.tokens.length
      tokens := s.tokens ++ [.HardNewLine] }

/-- `Intermediary::handle_end`. -/
def handle_end (s : Intermediary) : Intermediary :=
  { s with current_line_metadata := s.current_line_metadata.set_has_end }

/-- `Intermediary::handle_def`. -/
def handle_def (s : Intermediary) : Intermediary :=
  { s with current_line_metadata := s.current_line_metadata.set_has_def }

/-- `Intermediary::handle_do_keyword`: sets `has_do_keyword` on the current
metadata, then inserts a spacer when the previous line wants one. -/
def handle_do_keyword (s : Intermediary) : Option Intermediary :=
  match s.previous_line_metadata with
  | some prev =>
    if prev.wants_spacer_for_conditional then
      Intermediary.insert_trailing_blankline
        { s with current_line_metadata := s.current_line_metadata.set_has_do_keyword } .DoKeyword
    else
      some { s with current_line_metadata := s.current_line_metadata.set_has_do_keyword }
  | none => some { s with current_line_metadata := s.current_line_metadata.set_has_do_keyword }

/-- `Intermediary::handle_class_or_module`. -/
def handle_class_or_module (s : Intermediary) : Option Intermediary :=
  match s.previous_line_metadata with
  | some prev =>
    if !prev.gets_indented then s.insert_trailing_blankline .ClassOrModule
    else some s
  | none => some s

/-- `Intermediary::handle_conditional`: sets `has_conditional` on the current
metadata, then inserts a spacer when the previous line wants one and the
keyword's contents are exactly `if`. -/
def handle_conditional (s : Intermediary) (cond : String) : Option Intermediary :=
  match s.previous_line_metadata with
  | some prev =>
    if prev.wants_spacer_for_conditional && cond == "if" then
      Intermediary.insert_trailing_blankline
        { s with current_line_metadata := s.current_line_metadata.set_has_conditional }
        .Conditional
    else
      some { s with current_line_metadata := s.current_line_metadata.set_has_conditional }
  | none => some { s with current_line_metadata := s.current_line_metadata.set_has_conditional }

/-- The boolean form of the source's
`matches!(self.last_4(), Some((_, _, End, HardNewLine)))`. -/
def comment_follows_end (s : Intermediary) : Bool :=
  match s.last_4 with
  | some (_, _, t3, t4) => (t3 == ConcreteLineToken.End) && (t4 == ConcreteLineToken.HardNewLine)
  | none => false

/-- `Intermediary::push`. Each arm mirrors the source's dispatch; the final
append of the pushed token (`do_push`) is folded into each arm, with the
`HardNewLine` arm's suppression handled inside `newlineClose`. -/
def push (s : Intermediary) (lt : ConcreteLineToken) : Option Intermediary :=
  match lt with
  | .HardNewLine =>
    (if s.requireCond then s.insert_trailing_blankline .EndOfRequireBlock else some s).map
      newlineClose
  | .ModuleKeyword =>
    s.handle_class_or_module.map fun t => { t with tokens := t.tokens ++ [.ModuleKeyword] }
  | .ClassKeyword =>
    s.handle_class_or_module.map fun t => { t with tokens := t.tokens ++ [.ClassKeyword] }
  | .DoKeyword =>
    s.handle_do_keyword.map fun t => { t with tokens := t.tokens ++ [.DoKeyword] }
  | .ConditionalKeyword contents =>
    (s.handle_conditional contents).map fun t =>
      { t with tokens := t.tokens ++ [.ConditionalKeyword contents] }
  | .End =>
    some { s.handle_end with tokens := s.tokens ++ [.End] }
  | .DefKeyword =>
    some { s.handle_def with tokens := s.tokens ++ [.DefKeyword] }
  | .Indent depth =>
    some { s with
           current_line_metadata := s.current_line_metadata.observe_indent_level depth
           previous_line_metadata :=
             match s.previous_line_metadata with
             | some prev =>
               some (if LineMetadata.indent_level_increases_between prev
                       (s.current_line_metadata.observe_indent_level depth) then
                       prev.set_gets_indented
                     else prev)
             | none => none
           tokens := s.tokens ++ [.Indent depth] }
  | .DirectPart part =>
    some { s with
           current_line_metadata :=
             if part == "require"
                 && ((s.tokens.getLast?.map ConcreteLineToken.is_indent).getD false) then
               s.current_line_metadata.set_has_require
             else s.current_line_metadata
           tokens := s.tokens ++ [.DirectPart part] }
  | .Comment contents =>
    (if s.comment_follows_end then s.insert_trailing_blankline .CommentAfterEnd else some s).map
      fun t => { t with tokens := t.tokens ++ [.Comment contents] }
  | .Comma => some { s with tokens := s.tokens ++ [.Comma] }
  | .Space => some { s with tokens := s.tokens ++ [.Space] }
  | .Other contents => some { s with tokens := s.tokens ++ [.Other contents] }

end Intermediary

/-- Length bookkeeping for `vecRemove`: a successful removal shortens the
list by one. -/
theorem vecRemove_length {α : Type} :
    ∀ (l : List α) (i : Nat) (l' : List α), vecRemove l i = some l' → l'.length + 1 = l.length := by
  intro l
  induction l with
  | nil => intro i l' h; simp [vecRemove] at h
  | cons x l ih =>
    intro i l' h
    cases i with
    | zero =>
      simp [vecRemove] at h
      subst h
      simp
    | succ i =>
      simp [vecRemove, Option.map_eq_some'] at h
      obtain ⟨t, ht, rfl⟩ := h
      simp [← ih i t ht]

namespace Intermediary

/-- The loop body of `Intermediary::clear_breakable_garbage`: while the token
at `len - 2` is single-line breakable garbage, remove it. `none` models the
panic of `self.tokens[self.len() - 2]` when fewer than two tokens remain
(in release mode the wrapped index is out of bounds, in debug mode the
subtraction itself aborts; both are failures). -/
def clearLoop (l : List ConcreteLineToken) : Option (List ConcreteLineToken) :=
  if 2 ≤ l.length then
    match l[l.length - 2]? with
    | none => none
    | some t =>
      if t.is_single_line_breakable_garbage then
        match h2 : vecRemove l (l.length - 2) with
        | none => none
        | some l2 => clearLoop l2
      else some l
  else none
termination_by l.length
decreasing_by
  have := vecRemove_length _ _ _ h2
  omega

/-- `Intermediary::clear_breakable_garbage`. -/
def clear_breakable_garbage (s : Intermediary) : Option Intermediary :=
  (clearLoop s.tokens).map fun t => { s with tokens := t }

/-- Pushing a whole token stream, left to right. -/
def pushAll (s : Intermediary) : List ConcreteLineToken → Option Intermediary
  | [] => some s
  | t :: rest => (s.push t).bind fun s1 => s1.pushAll rest

end Intermediary

/-- All tokens of the list are something other than `HardNewLine`. -/
def allNonNL (l : List ConcreteLineToken) : Bool :=
  l.all fun t => !t.isHardNewLine

/-- No three consecutive tokens of the list are all `HardNewLine`. -/
def noTripleNewline : List ConcreteLineToken → Bool
  | a :: b :: c :: rest =>
    !(a.isHardNewLine && b.isHardNewLine && c.isHardNewLine) && noTripleNewline (b :: c :: rest)
  | _ => true

/-- The last token of the list is a `HardNewLine`. -/
def lastIsNL : List ConcreteLineToken → Bool
  | [] => false
  | [a] => a.isHardNewLine
  | _ :: b :: rest => lastIsNL (b :: rest)

/-- The last two tokens of the list are both `HardNewLine`. -/
def nlTail2 : List ConcreteLineToken → Bool
  | [] => false
  | [_] => false
  | [a, b] => a.isHardNewLine && b.isHardNewLine
  | _ :: b :: c :: rest => nlTail2 (b :: c :: rest)

/-- The state invariant maintained by push-only runs: before any line has
closed the buffer holds no newline and the index is zero; afterwards the
index addresses a `HardNewLine`; no newline sits strictly after the index;
and the buffer never holds three consecutive newlines. -/
def Intermediary.wellFormed (s : Intermediary) : Bool :=
  (match s.previous_line_metadata with
   | none => decide (s.index_of_last_hard_newline = 0) && allNonNL s.tokens
   | some _ => decide (s.tokens[s.index_of_last_hard_newline]? = some .HardNewLine))
  && allNonNL (s.tokens.drop (s.index_of_last_hard_newline + 1))
  && noTripleNewline s.tokens

section Lemmas

open ConcreteLineToken

theorem isHardNewLine_iff (t : ConcreteLineToken) :
    t.isHardNewLine = true ↔ t = .HardNewLine := by
  cases t <;> simp [ConcreteLineToken.isHardNewLine]

theorem optIsHNL_iff (o : Option ConcreteLineToken) :
    optIsHNL o = true ↔ o = some .HardNewLine := by
  cases o with
  | none => simp [optIsHNL]
  | some t => simp [optIsHNL, isHardNewLine_iff]

theorem vecInsert_append {α : Type} (A : List α) (B : List α) (a : α) :
    vecInsert (A ++ B) A.length a = some (A ++ a :: B) := by
  induction A with
  | nil => simp [vecInsert]
  | cons x A ih => simp [vecInsert, ih]

theorem vecRemove_append {α : Type} (A : List α) (b : α) (B : List α) :
    vecRemove (A ++ b :: B) A.length = some (A ++ B) := by
  induction A with
  | nil => simp [vecRemove]
  | cons x A ih => simp [vecRemove, ih]

theorem allNonNL_iff (l : List ConcreteLineToken) :
    allNonNL l = true ↔ ∀ t ∈ l, t.isHardNewLine = false := by
  simp [allNonNL, List.all_eq_true]

theorem allNonNL_append (l₁ l₂ : List ConcreteLineToken) :
    allNonNL (l₁ ++ l₂) = (allNonNL l₁ && allNonNL l₂) := by
  simp [allNonNL]

theorem allNonNL_drop (l : List ConcreteLineToken) (k : Nat) (h : allNonNL l = true) :
    allNonNL (l.drop k) = true := by
  rw [allNonNL_iff] at h ⊢
  intro t ht
  exact h t (List.mem_of_mem_drop ht)

theorem noTripleNewline_cons3 (a b c : ConcreteLineToken) (r : List ConcreteLineToken) :
    noTripleNewline (a :: b :: c :: r) =
      (!(a.isHardNewLine && b.isHardNewLine && c.isHardNewLine) && noTripleNewline (b :: c :: r)) :=
  rfl

theorem nlTail2_pair (a b : ConcreteLineToken) :
    nlTail2 [a, b] = (a.isHardNewLine && b.isHardNewLine) :=
  rfl

theorem nlTail2_cons3 (a b c : ConcreteLineToken) (r : List ConcreteLineToken) :
    nlTail2 (a :: b :: c :: r) = nlTail2 (b :: c :: r) :=
  rfl

theorem lastIsNL_cons2 (a b : ConcreteLineToken) (r : List ConcreteLineToken) :
    lastIsNL (a :: b :: r) = lastIsNL (b :: r) :=
  rfl

theorem noTripleNewline_small (l : List ConcreteLineToken) (h : l.length ≤ 2) :
    noTripleNewline l = true := by
  match l with
  | [] => rfl
  | [_] => rfl
  | [_, _] => rfl
  | _ :: _ :: _ :: _ => simp at h

theorem noTripleNewline_of_allNonNL :
    ∀ (l : List ConcreteLineToken), allNonNL l = true → noTripleNewline l = true := by
  intro l
  induction l with
  | nil => intro _; rfl
  | cons a l ih =>
    intro h
    have htail : allNonNL l = true := by
      rw [allNonNL_iff] at h ⊢
      intro t ht
      exact h t (List.mem_cons_of_mem a ht)
    match l, htail, ih with
    | [], _, _ => rfl
    | [b], _, _ => rfl
    | b :: c :: rest, htail, ih =>
      have hb : b.isHardNewLine = false := by
        rw [allNonNL_iff] at htail
        exact htail b (by simp)
      rw [noTripleNewline_cons3, hb]
      simp only [Bool.false_and, Bool.and_false, Bool.not_false, Bool.true_and]
      exact ih htail

theorem noTripleNewline_cons_cons_of_allNonNL (a b : ConcreteLineToken)
    (B : List ConcreteLineToken) (hB : allNonNL B = true) :
    noTripleNewline (a :: b :: B) = true := by
  match B with
  | [] => rfl
  | c :: B' =>
    have hc : c.isHardNewLine = false := by
      rw [allNonNL_iff] at hB
      exact hB c (by simp)
    rw [noTripleNewline_cons3, hc]
    simp only [Bool.and_false, Bool.not_false, Bool.true_and]
    match B', hB with
    | [], _ => rfl
    | d :: B'', hB =>
      have hd : d.isHardNewLine = false := by
        rw [allNonNL_iff] at hB
        exact hB d (by simp)
      rw [noTripleNewline_cons3, hc]
      simp only [Bool.false_and, Bool.and_false, Bool.not_false, Bool.true_and]
      exact noTripleNewline_of_allNonNL (c :: d :: B'') hB

theorem noTripleNewline_cons_of_allNonNL (a : ConcreteLineToken)
    (B : List ConcreteLineToken) (hB : allNonNL B = true) :
    noTripleNewline (a :: B) = true := by
  match B with
  | [] => rfl
  | b :: B' => exact noTripleNewline_cons_cons_of_allNonNL a b B' (by
      rw [allNonNL_iff] at hB ⊢
      intro t ht
      exact hB t (List.mem_cons_of_mem b ht))

theorem noTripleNewline_prefix :
    ∀ (X Y : List ConcreteLineToken), noTripleNewline (X ++ Y) = true → noTripleNewline X = true := by
  intro X
  induction X with
  | nil => intro Y _; rfl
  | cons a X ih =>
    intro Y h
    match X, ih with
    | [], _ => rfl
    | [b], _ => rfl
    | b :: c :: rest, ih =>
      have h' : (!(a.isHardNewLine && b.isHardNewLine && c.isHardNewLine)
          && noTripleNewline (b :: c :: (rest ++ Y))) = true := h
      rw [noTripleNewline_cons3]
      simp only [Bool.and_eq_true] at h' ⊢
      exact ⟨h'.1, ih Y h'.2⟩

theorem noTripleNewline_append_allNonNL :
    ∀ (X B : List ConcreteLineToken), noTripleNewline X = true → allNonNL B = true →
      noTripleNewline (X ++ B) = true := by
  intro X
  induction X with
  | nil => intro B _ hB; exact noTripleNewline_of_allNonNL B hB
  | cons a X ih =>
    intro B h hB
    match X, ih with
    | [], _ => exact noTripleNewline_cons_of_allNonNL a B hB
    | [b], _ => exact noTripleNewline_cons_cons_of_allNonNL a b B hB
    | b :: c :: rest, ih =>
      rw [noTripleNewline_cons3] at h
      simp only [Bool.and_eq_true] at h
      show (!(a.isHardNewLine && b.isHardNewLine && c.isHardNewLine)
          && noTripleNewline (b :: c :: (rest ++ B))) = true
      simp only [Bool.and_eq_true]
      refine ⟨h.1, ?_⟩
      have := ih B h.2 hB
      simpa using this

theorem nlTail2_concat :
    ∀ (L : List ConcreteLineToken) (x : ConcreteLineToken),
      nlTail2 (L ++ [x]) = (lastIsNL L && x.isHardNewLine) := by
  intro L
  induction L with
  | nil => intro x; simp [nlTail2, lastIsNL]
  | cons a L ih =>
    intro x
    match L, ih with
    | [], _ => simp [nlTail2, lastIsNL]
    | [b], _ => simp [nlTail2, lastIsNL]
    | b :: c :: rest, ih =>
      show nlTail2 (a :: b :: c :: (rest ++ [x])) = _
      rw [nlTail2_cons3]
      rw [show (b :: c :: (rest ++ [x])) = (b :: c :: rest) ++ [x] by simp]
      rw [ih x, lastIsNL_cons2 a b (c :: rest)]

theorem lastIsNL_concat (L : List ConcreteLineToken) (x : ConcreteLineToken) :
    lastIsNL (L ++ [x]) = x.isHardNewLine := by
  induction L with
  | nil => rfl
  | cons a L ih =>
    match L, ih with
    | [], _ => rfl
    | b :: rest, ih =>
      show lastIsNL (a :: b :: (rest ++ [x])) = _
      rw [lastIsNL_cons2]
      rw [show (b :: (rest ++ [x])) = (b :: rest) ++ [x] by simp]
      exact ih

theorem noTripleNewline_concat :
    ∀ (L : List ConcreteLineToken) (x : ConcreteLineToken),
      noTripleNewline (L ++ [x]) = (noTripleNewline L && !(x.isHardNewLine && nlTail2 L)) := by
  intro L
  induction L with
  | nil => intro x; simp [noTripleNewline, nlTail2]
  | cons a L ih =>
    intro x
    match L, ih with
    | [], _ => simp [noTripleNewline, nlTail2]
    | [b], _ =>
      show noTripleNewline [a, b, x] = (noTripleNewline [a, b] && !(x.isHardNewLine && nlTail2 [a, b]))
      rw [noTripleNewline_cons3, nlTail2_pair]
      rw [show noTripleNewline [b, x] = true from rfl]
      rw [show noTripleNewline [a, b] = true from rfl]
      cases a.isHardNewLine <;> cases b.isHardNewLine <;> cases x.isHardNewLine <;> rfl
    | b :: c :: rest, ih =>
      show noTripleNewline (a :: b :: c :: (rest ++ [x])) = _
      rw [noTripleNewline_cons3]
      rw [show (b :: c :: (rest ++ [x])) = (b :: c :: rest) ++ [x] by simp]
      rw [ih x, nlTail2_cons3, noTripleNewline_cons3]
      cases h1 : (!(a.isHardNewLine && b.isHardNewLine && c.isHardNewLine)) <;>
        cases h2 : noTripleNewline (b :: c :: rest) <;>
        cases h3 : (x.isHardNewLine && nlTail2 (b :: c :: rest)) <;> rfl

theorem allNonNL_getElem (l : List ConcreteLineToken) (i : Nat) (t : ConcreteLineToken)
    (h : allNonNL l = true) (hg : l[i]? = some t) : t.isHardNewLine = false := by
  rw [allNonNL_iff] at h
  exact h t (List.getElem?_mem hg)

theorem lastIsNL_eq_getLast :
    ∀ (L : List ConcreteLineToken), lastIsNL L = optIsHNL L.getLast? := by
  intro L
  induction L with
  | nil => rfl
  | cons a L ih =>
    match L, ih with
    | [], _ => rfl
    | b :: rest, ih =>
      rw [lastIsNL_cons2, List.getLast?_cons_cons]
      exact ih

theorem getWrapSub_split_one (A B : List ConcreteLineToken) (t : ConcreteLineToken) :
    getWrapSub (A ++ t :: B) A.length 1 = A.getLast? := by
  cases A with
  | nil => simp [getWrapSub]
  | cons x A' =>
    rw [getWrapSub, if_neg (by simp)]
    rw [List.getLast?_eq_getElem?]
    have h1 : (x :: A').length - 1 = A'.length := by simp
    rw [h1]
    exact List.getElem?_append_left (by simp)

/-- Splitting the buffer at a position known to hold a token. -/
theorem tokens_decomp (l : List ConcreteLineToken) (i : Nat) (t : ConcreteLineToken)
    (h : l[i]? = some t) :
    ∃ A B, l = A ++ t :: B ∧ A.length = i ∧ B = l.drop (i + 1) := by
  rw [List.getElem?_eq_some_iff] at h
  obtain ⟨hi, hit⟩ := h
  refine ⟨l.take i, l.drop (i + 1), ?_, ?_, rfl⟩
  · conv_lhs => rw [← List.take_append_drop i l]
    rw [List.drop_eq_getElem_cons hi, hit]
  · rw [List.length_take]
    omega

theorem getElem_after_append (A : List ConcreteLineToken) (x : ConcreteLineToken)
    (B : List ConcreteLineToken) : (A ++ x :: B)[A.length]? = some x := by
  rw [List.getElem?_append_right (Nat.le_refl _)]
  simp

theorem getElem_cons2_mid (A : List ConcreteLineToken) (x y : ConcreteLineToken)
    (B : List ConcreteLineToken) : (A ++ x :: y :: B)[A.length + 1]? = some y := by
  rw [show A ++ x :: y :: B = (A ++ [x]) ++ y :: B by simp]
  rw [show A.length + 1 = (A ++ [x]).length by simp]
  exact getElem_after_append _ _ _

theorem drop_cons2_mid (A : List ConcreteLineToken) (x y : ConcreteLineToken)
    (B : List ConcreteLineToken) : (A ++ x :: y :: B).drop (A.length + 2) = B := by
  rw [show A ++ x :: y :: B = (A ++ [x, y]) ++ B by simp]
  exact List.drop_left' (by simp)

/-- Inserting a second `HardNewLine` right before one that is not preceded by
a newline, with no newline after it, keeps runs of newlines short. -/
theorem noTripleNewline_insert (A B : List ConcreteLineToken)
    (hA : lastIsNL A = false) (hB : allNonNL B = true)
    (h : noTripleNewline (A ++ .HardNewLine :: B) = true) :
    noTripleNewline (A ++ .HardNewLine :: .HardNewLine :: B) = true := by
  have h1 : noTripleNewline (A ++ [ConcreteLineToken.HardNewLine]) = true :=
    noTripleNewline_prefix (A ++ [ConcreteLineToken.HardNewLine]) B (by simpa using h)
  have h2 : noTripleNewline ((A ++ [ConcreteLineToken.HardNewLine])
      ++ [ConcreteLineToken.HardNewLine]) = true := by
    rw [noTripleNewline_concat, h1, nlTail2_concat, hA]
    rfl
  have h3 := noTripleNewline_append_allNonNL _ B h2 hB
  simpa using h3

theorem wellFormed_none (s : Intermediary) (hp : s.previous_line_metadata = none) :
    s.wellFormed = true ↔
      (s.index_of_last_hard_newline = 0 ∧ allNonNL s.tokens = true
        ∧ noTripleNewline s.tokens = true) := by
  unfold Intermediary.wellFormed
  rw [hp]
  simp only [Bool.and_eq_true, decide_eq_true_eq]
  constructor
  · rintro ⟨⟨⟨h1, h2⟩, _⟩, h4⟩
    exact ⟨h1, h2, h4⟩
  · rintro ⟨h1, h2, h4⟩
    exact ⟨⟨⟨h1, h2⟩, allNonNL_drop _ _ h2⟩, h4⟩

theorem wellFormed_some (s : Intermediary) (p : LineMetadata)
    (hp : s.previous_line_metadata = some p) :
    s.wellFormed = true ↔
      (s.tokens[s.index_of_last_hard_newline]? = some .HardNewLine
        ∧ allNonNL (s.tokens.drop (s.index_of_last_hard_newline + 1)) = true
        ∧ noTripleNewline s.tokens = true) := by
  unfold Intermediary.wellFormed
  rw [hp]
  simp only [Bool.and_eq_true, decide_eq_true_eq]
  tauto

/-- A successful no-op branch of `insert_trailing_blankline`. -/
theorem insertTB_noop (s : Intermediary) (r : BlanklineReason)
    (h : ((optIsHNL (getWrapSub s.tokens s.index_of_last_hard_newline 2)
        && optIsIndent (getWrapSub s.tokens s.index_of_last_hard_newline 1)
        && optIsHNL (s.tokens[s.index_of_last_hard_newline]?))
      || (optIsHNL (getWrapSub s.tokens s.index_of_last_hard_newline 1)
        && optIsHNL (s.tokens[s.index_of_last_hard_newline]?))) = true) :
    s.insert_trailing_blankline r = some s := by
  unfold Intermediary.insert_trailing_blankline
  rw [if_pos h]

/-- The inserting branch of `insert_trailing_blankline`. -/
theorem insertTB_insert (s : Intermediary) (r : BlanklineReason)
    (h : ((optIsHNL (getWrapSub s.tokens s.index_of_last_hard_newline 2)
        && optIsIndent (getWrapSub s.tokens s.index_of_last_hard_newline 1)
        && optIsHNL (s.tokens[s.index_of_last_hard_newline]?))
      || (optIsHNL (getWrapSub s.tokens s.index_of_last_hard_newline 1)
        && optIsHNL (s.tokens[s.index_of_last_hard_newline]?))) = false) :
    s.insert_trailing_blankline r =
      (vecInsert s.tokens s.index_of_last_hard_newline .HardNewLine).map fun t =>
        { s with tokens := t
                 index_of_last_hard_newline := s.index_of_last_hard_newline + 1 } := by
  unfold Intermediary.insert_trailing_blankline
  rw [if_neg (by rw [h]; exact Bool.false_ne_true)]

/-- `insert_trailing_blankline` succeeds and preserves the invariant whenever
the remembered index addresses a `HardNewLine`; it never touches the
metadata. -/
theorem insertTB_wf (s : Intermediary) (r : BlanklineReason)
    (hw : s.wellFormed = true)
    (hidx : s.tokens[s.index_of_last_hard_newline]? = some .HardNewLine) :
    ∃ t, s.insert_trailing_blankline r = some t ∧ t.wellFormed = true ∧
      t.previous_line_metadata = s.previous_line_metadata ∧
      t.current_line_metadata = s.current_line_metadata ∧
      t.tokens[t.index_of_last_hard_newline]? = some .HardNewLine := by
  cases hcond : ((optIsHNL (getWrapSub s.tokens s.index_of_last_hard_newline 2)
        && optIsIndent (getWrapSub s.tokens s.index_of_last_hard_newline 1)
        && optIsHNL (s.tokens[s.index_of_last_hard_newline]?))
      || (optIsHNL (getWrapSub s.tokens s.index_of_last_hard_newline 1)
        && optIsHNL (s.tokens[s.index_of_last_hard_newline]?))) with
  | true =>
    exact ⟨s, insertTB_noop s r hcond, hw, rfl, rfl, hidx⟩
  | false =>
    obtain ⟨p, hp⟩ : ∃ p, s.previous_line_metadata = some p := by
      cases hprev : s.previous_line_metadata with
      | none =>
        exfalso
        have hall := ((wellFormed_none s hprev).1 hw).2.1
        have := allNonNL_getElem _ _ _ hall hidx
        simp [ConcreteLineToken.isHardNewLine] at this
      | some p => exact ⟨p, rfl⟩
    obtain ⟨A, B, hdec, hlen, hBdrop⟩ :=
      tokens_decomp s.tokens s.index_of_last_hard_newline _ hidx
    obtain ⟨hHNL, hdropNL, htriple⟩ := (wellFormed_some s p hp).1 hw
    rw [← hBdrop] at hdropNL
    rw [hdec] at htriple
    have hg1 : optIsHNL (getWrapSub s.tokens s.index_of_last_hard_newline 1) = false := by
      have h0 : optIsHNL (s.tokens[s.index_of_last_hard_newline]?) = true := by
        rw [hidx]; rfl
      rw [h0] at hcond
      simp only [Bool.and_true, Bool.or_eq_false_iff] at hcond
      exact hcond.2
    have hlast : lastIsNL A = false := by
      rw [lastIsNL_eq_getLast, ← getWrapSub_split_one A B ConcreteLineToken.HardNewLine,
        hlen, ← hdec]
      exact hg1
    have hins : vecInsert s.tokens s.index_of_last_hard_newline ConcreteLineToken.HardNewLine =
        some (A ++ ConcreteLineToken.HardNewLine :: ConcreteLineToken.HardNewLine :: B) := by
      rw [hdec, ← hlen]
      exact vecInsert_append A (ConcreteLineToken.HardNewLine :: B) ConcreteLineToken.HardNewLine
    refine ⟨{ s with
        tokens := A ++ ConcreteLineToken.HardNewLine :: ConcreteLineToken.HardNewLine :: B
        index_of_last_hard_newline := s.index_of_last_hard_newline + 1 }, ?_, ?_, rfl, rfl, ?_⟩
    · rw [insertTB_insert s r hcond, hins]
      rfl
    · refine (wellFormed_some { s with
          tokens := A ++ ConcreteLineToken.HardNewLine :: ConcreteLineToken.HardNewLine :: B
          index_of_last_hard_newline := s.index_of_last_hard_newline + 1 } p hp).2 ⟨?_, ?_, ?_⟩
      · show (A ++ ConcreteLineToken.HardNewLine :: ConcreteLineToken.HardNewLine :: B)[
          s.index_of_last_hard_newline + 1]? = some ConcreteLineToken.HardNewLine
        rw [← hlen]
        exact getElem_cons2_mid A _ _ B
      · show allNonNL ((A ++ ConcreteLineToken.HardNewLine
            :: ConcreteLineToken.HardNewLine :: B).drop
          (s.index_of_last_hard_newline + 1 + 1)) = true
        rw [← hlen, show A.length + 1 + 1 = A.length + 2 from rfl, drop_cons2_mid A _ _ B]
        exact hdropNL
      · exact noTripleNewline_insert A B hlast hdropNL htriple
    · show (A ++ ConcreteLineToken.HardNewLine :: ConcreteLineToken.HardNewLine :: B)[
        s.index_of_last_hard_newline + 1]? = some ConcreteLineToken.HardNewLine
      rw [← hlen]
      exact getElem_cons2_mid A _ _ B

theorem nlTail2_eq_opt :
    ∀ (L : List ConcreteLineToken), 2 ≤ L.length →
      nlTail2 L = (optIsHNL (L[L.length - 2]?) && optIsHNL (L[L.length - 1]?)) := by
  intro L
  induction L with
  | nil => intro h; simp at h
  | cons a L ih =>
    intro h
    match L, ih with
    | [], _ => simp at h
    | [b], _ => rfl
    | b :: c :: rest, ih =>
      rw [nlTail2_cons3, ih (by simp)]
      have e1 : (a :: b :: c :: rest).length - 2 = ((b :: c :: rest).length - 2) + 1 := by
        simp
      have e2 : (a :: b :: c :: rest).length - 1 = ((b :: c :: rest).length - 1) + 1 := by
        simp
      rw [e1, e2, List.getElem?_cons_succ, List.getElem?_cons_succ]

theorem wellFormed_set_cur (s : Intermediary) (m : LineMetadata) :
    Intermediary.wellFormed { s with current_line_metadata := m } = s.wellFormed := rfl

/-- Appending a non-newline token at the end of the buffer keeps the invariant,
whatever happens to the line metadata, as long as a previous line stays on
record exactly when it was. -/
theorem append_wf (s : Intermediary) (x : ConcreteLineToken) (hx : x.isHardNewLine = false)
    (m : LineMetadata) (p' : Option LineMetadata)
    (hps : p'.isSome = s.previous_line_metadata.isSome)
    (hw : s.wellFormed = true) :
    Intermediary.wellFormed
      { tokens := s.tokens ++ [x]
        index_of_last_hard_newline := s.index_of_last_hard_newline
        current_line_metadata := m
        previous_line_metadata := p' } = true := by
  cases hprev : s.previous_line_metadata with
  | none =>
    obtain ⟨h0, hall, htr⟩ := (wellFormed_none s hprev).1 hw
    have hp'n : p' = none := by
      rw [hprev] at hps
      cases p' with
      | none => rfl
      | some q => simp at hps
    refine (wellFormed_none _ hp'n).2 ⟨h0, ?_, ?_⟩
    · rw [allNonNL_append, hall]
      simp [allNonNL, hx]
    · rw [noTripleNewline_concat, htr, hx]
      rfl
  | some p =>
    obtain ⟨hHNL, hdropNL, htr⟩ := (wellFormed_some s p hprev).1 hw
    obtain ⟨q, hq⟩ : ∃ q, p' = some q := by
      rw [hprev] at hps
      cases p' with
      | none => simp at hps
      | some q => exact ⟨q, rfl⟩
    have hidxlt : s.index_of_last_hard_newline < s.tokens.length := by
      rw [List.getElem?_eq_some_iff] at hHNL
      exact hHNL.1
    refine (wellFormed_some _ q hq).2 ⟨?_, ?_, ?_⟩
    · show (s.tokens ++ [x])[s.index_of_last_hard_newline]? = some ConcreteLineToken.HardNewLine
      rw [List.getElem?_append_left hidxlt]
      exact hHNL
    · show allNonNL ((s.tokens ++ [x]).drop (s.index_of_last_hard_newline + 1)) = true
      rw [List.drop_append_eq_append_drop, allNonNL_append]
      have h1 : allNonNL (List.drop (s.index_of_last_hard_newline + 1 - s.tokens.length) [x])
          = true := by
        cases s.index_of_last_hard_newline + 1 - s.tokens.length with
        | zero => simp [allNonNL, hx]
        | succ k => simp [allNonNL, List.drop_succ_cons]
      rw [hdropNL, h1]
      rfl
    · show noTripleNewline (s.tokens ++ [x]) = true
      rw [noTripleNewline_concat, htr, hx]
      rfl

/-- Closing a line (`newlineClose`) keeps the invariant. -/
theorem newlineClose_wf (s : Intermediary) (hw : s.wellFormed = true) :
    s.newlineClose.wellFormed = true := by
  have htr : noTripleNewline s.tokens = true := by
    cases hprev : s.previous_line_metadata with
    | none => exact ((wellFormed_none s hprev).1 hw).2.2
    | some p => exact ((wellFormed_some s p hprev).1 hw).2.2
  unfold Intermediary.newlineClose
  by_cases hlen2 : 2 ≤ s.tokens.length
  · rw [if_pos hlen2]
    by_cases hsup : (optIsHNL (s.tokens[s.tokens.length - 2]?)
        && optIsHNL (s.tokens[s.tokens.length - 1]?)) = true
    · rw [if_pos hsup]
      refine (wellFormed_some _ s.current_line_metadata rfl).2 ⟨?_, ?_, ?_⟩
      · show s.tokens[s.tokens.length - 1]? = some ConcreteLineToken.HardNewLine
        rw [← optIsHNL_iff]
        simp only [Bool.and_eq_true] at hsup
        exact hsup.2
      · show allNonNL (s.tokens.drop (s.tokens.length - 1 + 1)) = true
        rw [show s.tokens.length - 1 + 1 = s.tokens.length by omega, List.drop_length]
        rfl
      · exact htr
    · rw [if_neg hsup]
      refine (wellFormed_some _ s.current_line_metadata rfl).2 ⟨?_, ?_, ?_⟩
      · show (s.tokens ++ [ConcreteLineToken.HardNewLine])[s.tokens.length]?
          = some ConcreteLineToken.HardNewLine
        exact List.getElem?_concat_length _ _
      · show allNonNL ((s.tokens ++ [ConcreteLineToken.HardNewLine]).drop
          (s.tokens.length + 1)) = true
        rw [show s.tokens.length + 1
            = (s.tokens ++ [ConcreteLineToken.HardNewLine]).length by simp]
        rw [List.drop_length]
        rfl
      · show noTripleNewline (s.tokens ++ [ConcreteLineToken.HardNewLine]) = true
        rw [noTripleNewline_concat, htr,
          nlTail2_eq_opt s.tokens hlen2, Bool.eq_false_iff.2 hsup]
        rfl
  · rw [if_neg hlen2]
    refine (wellFormed_some _ s.current_line_metadata rfl).2 ⟨?_, ?_, ?_⟩
    · show (s.tokens ++ [ConcreteLineToken.HardNewLine])[s.tokens.length]?
        = some ConcreteLineToken.HardNewLine
      exact List.getElem?_concat_length _ _
    · show allNonNL ((s.tokens ++ [ConcreteLineToken.HardNewLine]).drop
        (s.tokens.length + 1)) = true
      rw [show s.tokens.length + 1
          = (s.tokens ++ [ConcreteLineToken.HardNewLine]).length by simp]
      rw [List.drop_length]
      rfl
    · show noTripleNewline (s.tokens ++ [ConcreteLineToken.HardNewLine]) = true
      apply noTripleNewline_small
      simp
      omega

theorem wf_idx_some (s : Intermediary) (p : LineMetadata)
    (hp : s.previous_line_metadata = some p) (hw : s.wellFormed = true) :
    s.tokens[s.index_of_last_hard_newline]? = some ConcreteLineToken.HardNewLine :=
  ((wellFormed_some s p hp).1 hw).1

theorem wf_idx_of_last_newline (s : Intermediary) (hw : s.wellFormed = true)
    (hlast : s.tokens[s.len - 1]? = some ConcreteLineToken.HardNewLine) :
    s.tokens[s.index_of_last_hard_newline]? = some ConcreteLineToken.HardNewLine := by
  cases hprev : s.previous_line_metadata with
  | none =>
    exfalso
    have hall := ((wellFormed_none s hprev).1 hw).2.1
    have := allNonNL_getElem _ _ _ hall hlast
    simp [ConcreteLineToken.isHardNewLine] at this
  | some p => exact wf_idx_some s p hprev hw

theorem last_4_last (s : Intermediary) (a b c d : ConcreteLineToken)
    (h : s.last_4 = some (a, b, c, d)) : s.tokens[s.len - 1]? = some d := by
  unfold Intermediary.last_4 at h
  by_cases h4 : s.len < 4
  · rw [if_pos h4] at h
    simp at h
  · rw [if_neg h4] at h
    cases e4 : s.tokens[s.len - 1]? with
    | some v4 =>
      rw [e4] at h
      cases e1 : s.tokens[s.len - 4]? <;> rw [e1] at h <;>
        cases e2 : s.tokens[s.len - 3]? <;> rw [e2] at h <;>
          cases e3 : s.tokens[s.len - 2]? <;> rw [e3] at h <;>
            simp at h
      rw [h.2.2.2]
    | none =>
      rw [e4] at h
      cases e1 : s.tokens[s.len - 4]? <;> rw [e1] at h <;>
        cases e2 : s.tokens[s.len - 3]? <;> rw [e2] at h <;>
          cases e3 : s.tokens[s.len - 2]? <;> rw [e3] at h <;>
            simp at h

theorem handle_class_or_module_wf (s : Intermediary) (hw : s.wellFormed = true) :
    ∃ t, s.handle_class_or_module = some t ∧ t.wellFormed = true
      ∧ t.previous_line_metadata = s.previous_line_metadata := by
  rcases Option.eq_none_or_eq_some s.previous_line_metadata with hpv | ⟨p, hpv⟩
  · have he : s.handle_class_or_module = some s := by
      unfold Intermediary.handle_class_or_module
      rw [hpv]
    exact ⟨s, he, hw, rfl⟩
  · by_cases hg : (!p.gets_indented) = true
    · have he : s.handle_class_or_module
          = s.insert_trailing_blankline .ClassOrModule := by
        unfold Intermediary.handle_class_or_module
        rw [hpv]
        show (if (!p.gets_indented) = true then s.insert_trailing_blankline .ClassOrModule
              else some s) = _
        rw [if_pos hg]
      obtain ⟨t, h1, h2, h3, _, _⟩ :=
        insertTB_wf s .ClassOrModule hw (wf_idx_some s p hpv hw)
      exact ⟨t, he.trans h1, h2, h3⟩
    · have he : s.handle_class_or_module = some s := by
        unfold Intermediary.handle_class_or_module
        rw [hpv]
        show (if (!p.gets_indented) = true then s.insert_trailing_blankline .ClassOrModule
              else some s) = _
        rw [if_neg hg]
      exact ⟨s, he, hw, rfl⟩

theorem handle_do_keyword_wf (s : Intermediary) (hw : s.wellFormed = true) :
    ∃ t, s.handle_do_keyword = some t ∧ t.wellFormed = true
      ∧ t.previous_line_metadata = s.previous_line_metadata := by
  rcases Option.eq_none_or_eq_some s.previous_line_metadata with hpv | ⟨p, hpv⟩
  · have he : s.handle_do_keyword = some
        { s with current_line_metadata := s.current_line_metadata.set_has_do_keyword } := by
      unfold Intermediary.handle_do_keyword
      rw [hpv]
    exact ⟨_, he, by rw [wellFormed_set_cur]; exact hw, rfl⟩
  · by_cases hg : p.wants_spacer_for_conditional = true
    · have he : s.handle_do_keyword = Intermediary.insert_trailing_blankline
          { s with current_line_metadata := s.current_line_metadata.set_has_do_keyword }
          .DoKeyword := by
        unfold Intermediary.handle_do_keyword
        rw [hpv]
        show (if p.wants_spacer_for_conditional = true then _ else _) = _
        rw [if_pos hg]
      obtain ⟨t, h1, h2, h3, _, _⟩ := insertTB_wf
        { s with current_line_metadata := s.current_line_metadata.set_has_do_keyword }
        .DoKeyword (by rw [wellFormed_set_cur]; exact hw) (wf_idx_some s p hpv hw)
      exact ⟨t, he.trans h1, h2, h3⟩
    · have he : s.handle_do_keyword = some
          { s with current_line_metadata := s.current_line_metadata.set_has_do_keyword } := by
        unfold Intermediary.handle_do_keyword
        rw [hpv]
        show (if p.wants_spacer_for_conditional = true then _ else _) = _
        rw [if_neg hg]
      exact ⟨_, he, by rw [wellFormed_set_cur]; exact hw, rfl⟩

theorem handle_conditional_wf (s : Intermediary) (c : String) (hw : s.wellFormed = true) :
    ∃ t, s.handle_conditional c = some t ∧ t.wellFormed = true
      ∧ t.previous_line_metadata = s.previous_line_metadata := by
  rcases Option.eq_none_or_eq_some s.previous_line_metadata with hpv | ⟨p, hpv⟩
  · have he : s.handle_conditional c = some
        { s with current_line_metadata := s.current_line_metadata.set_has_conditional } := by
      unfold Intermediary.handle_conditional
      rw [hpv]
    exact ⟨_, he, by rw [wellFormed_set_cur]; exact hw, rfl⟩
  · by_cases hg : (p.wants_spacer_for_conditional && c == "if") = true
    · have he : s.handle_conditional c = Intermediary.insert_trailing_blankline
          { s with current_line_metadata := s.current_line_metadata.set_has_conditional }
          .Conditional := by
        unfold Intermediary.handle_conditional
        rw [hpv]
        show (if (p.wants_spacer_for_conditional && c == "if") = true then _ else _) = _
        rw [if_pos hg]
      obtain ⟨t, h1, h2, h3, _, _⟩ := insertTB_wf
        { s with current_line_metadata := s.current_line_metadata.set_has_conditional }
        .Conditional (by rw [wellFormed_set_cur]; exact hw) (wf_idx_some s p hpv hw)
      exact ⟨t, he.trans h1, h2, h3⟩
    · have he : s.handle_conditional c = some
          { s with current_line_metadata := s.current_line_metadata.set_has_conditional } := by
        unfold Intermediary.handle_conditional
        rw [hpv]
        show (if (p.wants_spacer_for_conditional && c == "if") = true then _ else _) = _
        rw [if_neg hg]
      exact ⟨_, he, by rw [wellFormed_set_cur]; exact hw, rfl⟩

theorem comment_guard_wf (s : Intermediary) (hw : s.wellFormed = true) :
    ∃ t, (if s.comment_follows_end then s.insert_trailing_blankline .CommentAfterEnd
          else some s) = some t
      ∧ t.wellFormed = true ∧ t.previous_line_metadata = s.previous_line_metadata := by
  by_cases hcf : s.comment_follows_end = true
  · rw [if_pos hcf]
    have hd : s.tokens[s.len - 1]? = some ConcreteLineToken.HardNewLine := by
      unfold Intermediary.comment_follows_end at hcf
      cases hl4 : s.last_4 with
      | none => rw [hl4] at hcf; simp at hcf
      | some q =>
        obtain ⟨a, b, c, d⟩ := q
        rw [hl4] at hcf
        simp only [Bool.and_eq_true, beq_iff_eq] at hcf
        rw [last_4_last s a b c d hl4, hcf.2]
    obtain ⟨t, h1, h2, h3, _, _⟩ :=
      insertTB_wf s .CommentAfterEnd hw (wf_idx_of_last_newline s hw hd)
    exact ⟨t, h1, h2, h3⟩
  · rw [if_neg hcf]
    exact ⟨s, rfl, hw, rfl⟩

/-- `push` succeeds from every invariant state and keeps the invariant. -/
theorem push_wf (s : Intermediary) (x : ConcreteLineToken) (hw : s.wellFormed = true) :
    ∃ s', s.push x = some s' ∧ s'.wellFormed = true := by
  cases x with
  | HardNewLine =>
    by_cases hrc : s.requireCond = true
    · obtain ⟨p, hp⟩ : ∃ p, s.previous_line_metadata = some p := by
        unfold Intermediary.requireCond at hrc
        cases hpv : s.previous_line_metadata with
        | none => rw [hpv] at hrc; simp at hrc
        | some p => exact ⟨p, rfl⟩
      obtain ⟨t, hins, hwt, _, _, _⟩ :=
        insertTB_wf s .EndOfRequireBlock hw (wf_idx_some s p hp hw)
      refine ⟨t.newlineClose, ?_, newlineClose_wf t hwt⟩
      show (if s.requireCond = true then s.insert_trailing_blankline .EndOfRequireBlock
            else some s).map Intermediary.newlineClose = some t.newlineClose
      rw [if_pos hrc, hins]
      rfl
    · refine ⟨s.newlineClose, ?_, newlineClose_wf s hw⟩
      show (if s.requireCond = true then s.insert_trailing_blankline .EndOfRequireBlock
            else some s).map Intermediary.newlineClose = some s.newlineClose
      rw [if_neg hrc]
      rfl
  | ModuleKeyword =>
    obtain ⟨t, ht, hwt, hprevt⟩ := handle_class_or_module_wf s hw
    refine ⟨{ t with tokens := t.tokens ++ [ConcreteLineToken.ModuleKeyword] }, ?_, ?_⟩
    · have he : s.handle_class_or_module.map
          (fun u => { u with tokens := u.tokens ++ [ConcreteLineToken.ModuleKeyword] })
          = some { t with tokens := t.tokens ++ [ConcreteLineToken.ModuleKeyword] } := by
        rw [ht]
        rfl
      exact he
    · exact append_wf t ConcreteLineToken.ModuleKeyword rfl
        t.current_line_metadata t.previous_line_metadata rfl hwt
  | ClassKeyword =>
    obtain ⟨t, ht, hwt, hprevt⟩ := handle_class_or_module_wf s hw
    refine ⟨{ t with tokens := t.tokens ++ [ConcreteLineToken.ClassKeyword] }, ?_, ?_⟩
    · have he : s.handle_class_or_module.map
          (fun u => { u with tokens := u.tokens ++ [ConcreteLineToken.ClassKeyword] })
          = some { t with tokens := t.tokens ++ [ConcreteLineToken.ClassKeyword] } := by
        rw [ht]
        rfl
      exact he
    · exact append_wf t ConcreteLineToken.ClassKeyword rfl
        t.current_line_metadata t.previous_line_metadata rfl hwt
  | DoKeyword =>
    obtain ⟨t, ht, hwt, hprevt⟩ := handle_do_keyword_wf s hw
    refine ⟨{ t with tokens := t.tokens ++ [ConcreteLineToken.DoKeyword] }, ?_, ?_⟩
    · have he : s.handle_do_keyword.map
          (fun u => { u with tokens := u.tokens ++ [ConcreteLineToken.DoKeyword] })
          = some { t with tokens := t.tokens ++ [ConcreteLineToken.DoKeyword] } := by
        rw [ht]
        rfl
      exact he
    · exact append_wf t ConcreteLineToken.DoKeyword rfl
        t.current_line_metadata t.previous_line_metadata rfl hwt
  | ConditionalKeyword c =>
    obtain ⟨t, ht, hwt, hprevt⟩ := handle_conditional_wf s c hw
    refine ⟨{ t with tokens := t.tokens ++ [ConcreteLineToken.ConditionalKeyword c] }, ?_, ?_⟩
    · have he : (s.handle_conditional c).map
          (fun u => { u with tokens := u.tokens ++ [ConcreteLineToken.ConditionalKeyword c] })
          = some { t with tokens := t.tokens ++ [ConcreteLineToken.ConditionalKeyword c] } := by
        rw [ht]
        rfl
      exact he
    · exact append_wf t (ConcreteLineToken.ConditionalKeyword c) rfl
        t.current_line_metadata t.previous_line_metadata rfl hwt
  | End =>
    exact ⟨_, rfl, append_wf s ConcreteLineToken.End rfl
      s.current_line_metadata.set_has_end s.previous_line_metadata rfl hw⟩
  | DefKeyword =>
    exact ⟨_, rfl, append_wf s ConcreteLineToken.DefKeyword rfl
      s.current_line_metadata.set_has_def s.previous_line_metadata rfl hw⟩
  | Indent depth =>
    refine ⟨_, rfl, append_wf s (ConcreteLineToken.Indent depth) rfl
      (s.current_line_metadata.observe_indent_level depth)
      (match s.previous_line_metadata with
       | some prev =>
         some (if LineMetadata.indent_level_increases_between prev
                 (s.current_line_metadata.observe_indent_level depth) then
                 prev.set_gets_indented
               else prev)
       | none => none) ?_ hw⟩
    cases s.previous_line_metadata <;> rfl
  | DirectPart part =>
    exact ⟨_, rfl, append_wf s (ConcreteLineToken.DirectPart part) rfl
      (if part == "require"
          && ((s.tokens.getLast?.map ConcreteLineToken.is_indent).getD false) then
        s.current_line_metadata.set_has_require
      else s.current_line_metadata) s.previous_line_metadata rfl hw⟩
  | Comment contents =>
    obtain ⟨t, ht, hwt, hprevt⟩ := comment_guard_wf s hw
    refine ⟨{ t with tokens := t.tokens ++ [ConcreteLineToken.Comment contents] }, ?_, ?_⟩
    · have he : (if s.comment_follows_end then s.insert_trailing_blankline .CommentAfterEnd
            else some s).map
          (fun u => { u with tokens := u.tokens ++ [ConcreteLineToken.Comment contents] })
          = some { t with tokens := t.tokens ++ [ConcreteLineToken.Comment contents] } := by
        rw [ht]
        rfl
      exact he
    · exact append_wf t (ConcreteLineToken.Comment contents) rfl
        t.current_line_metadata t.previous_line_metadata rfl hwt
  | Comma =>
    exact ⟨_, rfl, append_wf s ConcreteLineToken.Comma rfl
      s.current_line_metadata s.previous_line_metadata rfl hw⟩
  | Space =>
    exact ⟨_, rfl, append_wf s ConcreteLineToken.Space rfl
      s.current_line_metadata s.previous_line_metadata rfl hw⟩
  | Other contents =>
    exact ⟨_, rfl, append_wf s (ConcreteLineToken.Other contents) rfl
      s.current_line_metadata s.previous_line_metadata rfl hw⟩

/-- A whole stream of pushes succeeds from every invariant state and keeps the
invariant. -/
theorem pushAll_wf (ts : List ConcreteLineToken) :
    ∀ (s : Intermediary), s.wellFormed = true →
      ∃ s', s.pushAll ts = some s' ∧ s'.wellFormed = true := by
  induction ts with
  | nil => intro s hw; exact ⟨s, rfl, hw⟩
  | cons t rest ih =>
    intro s hw
    obtain ⟨s1, h1, hw1⟩ := push_wf s t hw
    obtain ⟨s2, h2, hw2⟩ := ih s1 hw1
    refine ⟨s2, ?_, hw2⟩
    show (s.push t).bind (fun u => u.pushAll rest) = some s2
    rw [h1]
    exact h2

theorem wf_noTriple (s : Intermediary) (hw : s.wellFormed = true) :
    noTripleNewline s.tokens = true := by
  rcases Option.eq_none_or_eq_some s.previous_line_metadata with hpv | ⟨p, hpv⟩
  · exact ((wellFormed_none s hpv).1 hw).2.2
  · exact ((wellFormed_some s p hpv).1 hw).2.2

theorem wf_drop (s : Intermediary) (hw : s.wellFormed = true) :
    allNonNL (s.tokens.drop (s.index_of_last_hard_newline + 1)) = true := by
  rcases Option.eq_none_or_eq_some s.previous_line_metadata with hpv | ⟨p, hpv⟩
  · exact ((wellFormed_none s hpv).1 hw).2.1.symm ▸
      allNonNL_drop s.tokens _ ((wellFormed_none s hpv).1 hw).2.1
  · exact ((wellFormed_some s p hpv).1 hw).2.1

theorem wf_idx_nonzero (s : Intermediary) (hw : s.wellFormed = true)
    (h0 : s.index_of_last_hard_newline ≠ 0) :
    s.tokens[s.index_of_last_hard_newline]? = some ConcreteLineToken.HardNewLine := by
  rcases Option.eq_none_or_eq_some s.previous_line_metadata with hpv | ⟨p, hpv⟩
  · exact absurd ((wellFormed_none s hpv).1 hw).1 h0
  · exact wf_idx_some s p hpv hw

/-- `insert_trailing_blankline` never changes the line metadata. -/
theorem insertTB_fields (s : Intermediary) (r : BlanklineReason) (t : Intermediary)
    (h : s.insert_trailing_blankline r = some t) :
    t.current_line_metadata = s.current_line_metadata
      ∧ t.previous_line_metadata = s.previous_line_metadata := by
  by_cases hc : ((optIsHNL (getWrapSub s.tokens s.index_of_last_hard_newline 2)
        && optIsIndent (getWrapSub s.tokens s.index_of_last_hard_newline 1)
        && optIsHNL (s.tokens[s.index_of_last_hard_newline]?))
      || (optIsHNL (getWrapSub s.tokens s.index_of_last_hard_newline 1)
        && optIsHNL (s.tokens[s.index_of_last_hard_newline]?))) = true
  · rw [insertTB_noop s r hc] at h
    rw [← Option.some.inj h]
    exact ⟨rfl, rfl⟩
  · rw [insertTB_insert s r (Bool.eq_false_iff.2 hc)] at h
    cases hv : vecInsert s.tokens s.index_of_last_hard_newline ConcreteLineToken.HardNewLine with
    | none => rw [hv] at h; simp at h
    | some l =>
      rw [hv] at h
      simp only [Option.map_some'] at h
      rw [← Option.some.inj h]
      exact ⟨rfl, rfl⟩

/-- After a line closes, the index addresses the buffer's last slot. -/
theorem newlineClose_idx (s : Intermediary) :
    s.newlineClose.index_of_last_hard_newline + 1 = s.newlineClose.tokens.length := by
  unfold Intermediary.newlineClose
  by_cases hlen2 : 2 ≤ s.tokens.length
  · rw [if_pos hlen2]
    by_cases hsup : (optIsHNL (s.tokens[s.tokens.length - 2]?)
        && optIsHNL (s.tokens[s.tokens.length - 1]?)) = true
    · rw [if_pos hsup]
      show s.tokens.length - 1 + 1 = s.tokens.length
      omega
    · rw [if_neg hsup]
      show s.tokens.length + 1 = (s.tokens ++ [ConcreteLineToken.HardNewLine]).length
      simp
  · rw [if_neg hlen2]
    show s.tokens.length + 1 = (s.tokens ++ [ConcreteLineToken.HardNewLine]).length
    simp

/-- The cleanup loop stops at once when the slot before the last token is not
garbage. -/
theorem clearLoop_stop (l : List ConcreteLineToken) (t : ConcreteLineToken)
    (h2 : 2 ≤ l.length) (hg : l[l.length - 2]? = some t)
    (hng : t.is_single_line_breakable_garbage = false) :
    Intermediary.clearLoop l = some l := by
  rw [Intermediary.clearLoop, if_pos h2, hg]
  show (if t.is_single_line_breakable_garbage = true
        then _ else some l) = some l
  rw [if_neg (by rw [hng]; exact Bool.false_ne_true)]

/-- The cleanup loop removes the slot before the last token when it is
garbage, and goes on. -/
theorem clearLoop_step (l l' : List ConcreteLineToken) (t : ConcreteLineToken)
    (h2 : 2 ≤ l.length) (hg : l[l.length - 2]? = some t)
    (ht : t.is_single_line_breakable_garbage = true)
    (hrem : vecRemove l (l.length - 2) = some l') :
    Intermediary.clearLoop l = Intermediary.clearLoop l' := by
  rw [Intermediary.clearLoop, if_pos h2, hg]
  show (if t.is_single_line_breakable_garbage = true
        then (match h : vecRemove l (l.length - 2) with
              | none => none
              | some l2 => Intermediary.clearLoop l2)
        else some l) = Intermediary.clearLoop l'
  rw [if_pos ht, hrem]

/-- Stripping a run of garbage before the closing token, leaving the first
non-garbage token and everything before it alone. -/
theorem clearLoop_strip (G : List ConcreteLineToken) :
    ∀ (P : List ConcreteLineToken) (p c : ConcreteLineToken),
      p.is_single_line_breakable_garbage = false →
      (∀ g ∈ G, g.is_single_line_breakable_garbage = true) →
      Intermediary.clearLoop ((P ++ [p]) ++ G ++ [c]) = some ((P ++ [p]) ++ [c]) := by
  induction G using List.reverseRecOn with
  | nil =>
    intro P p c hp _
    rw [show (P ++ [p]) ++ ([] : List ConcreteLineToken) ++ [c] = (P ++ [p]) ++ [c] by simp]
    apply clearLoop_stop _ p
    · simp
    · have e : ((P ++ [p]) ++ [c]).length - 2 = P.length := by simp
      rw [e]
      rw [show (P ++ [p]) ++ [c] = P ++ p :: [c] by simp]
      exact getElem_after_append P p [c]
    · exact hp
  | append_singleton G' g ih =>
    intro P p c hp hG
    have e : ((P ++ [p]) ++ (G' ++ [g]) ++ [c]).length - 2 = ((P ++ [p]) ++ G').length := by
      simp
      try omega
    have hg : ((P ++ [p]) ++ (G' ++ [g]) ++ [c])[
        ((P ++ [p]) ++ (G' ++ [g]) ++ [c]).length - 2]? = some g := by
      rw [e]
      rw [show (P ++ [p]) ++ (G' ++ [g]) ++ [c] = ((P ++ [p]) ++ G') ++ g :: [c] by simp]
      exact getElem_after_append _ g [c]
    have hrem : vecRemove ((P ++ [p]) ++ (G' ++ [g]) ++ [c])
        (((P ++ [p]) ++ (G' ++ [g]) ++ [c]).length - 2) = some ((P ++ [p]) ++ G' ++ [c]) := by
      rw [e]
      rw [show (P ++ [p]) ++ (G' ++ [g]) ++ [c] = ((P ++ [p]) ++ G') ++ g :: [c] by simp]
      rw [vecRemove_append ((P ++ [p]) ++ G') g [c]]
    rw [clearLoop_step _ ((P ++ [p]) ++ G' ++ [c]) g (by simp; omega) hg
      (hG g (by simp)) hrem]
    exact ih P p c hp (fun x hx => hG x (by simp [hx]))

end Lemmas

/-- Claim C1, counterexample to the statement as given: pushing the stream
`[DirectPart "x"]` and then making three interleaved calls to
`insert_trailing_blankline` (all from reachable states, before any newline has
been pushed) leaves the buffer `[HardNewLine, HardNewLine, HardNewLine,
DirectPart "x"]`, which contains three consecutive `HardNewLine` tokens. -/
theorem claim_C1_counterexample :
    ((((Intermediary.new.push (.DirectPart "x")).bind
          (fun s => s.insert_trailing_blankline .ClassOrModule)).bind
        (fun s => s.insert_trailing_blankline .ClassOrModule)).bind
      (fun s => s.insert_trailing_blankline .ClassOrModule)).map Intermediary.tokens
      = some [.HardNewLine, .HardNewLine, .HardNewLine, .DirectPart "x"]
    ∧ noTripleNewline
        [ConcreteLineToken.HardNewLine, .HardNewLine, .HardNewLine, .DirectPart "x"] = false :=
  ⟨by decide, by decide⟩

/-- Claim C1 (amended): after pushing any input token stream from the initial
state, with no interleaved cleanup calls, the buffer never contains three
consecutive `HardNewLine` tokens — every maximal run of newlines has length
at most two. -/
theorem claim_C1_theorem (ts : List ConcreteLineToken) (s : Intermediary)
    (h : Intermediary.new.pushAll ts = some s) :
    noTripleNewline s.tokens = true := by
  obtain ⟨s', h', hw'⟩ := pushAll_wf ts Intermediary.new (by decide)
  rw [h] at h'
  cases Option.some.inj h'
  exact wf_noTriple _ hw'

/-- Claim C1, witness: a stream of three consecutive `HardNewLine` tokens is
pushed; the third is suppressed and the buffer keeps only two. -/
theorem claim_C1_witness :
    noTripleNewline (Intermediary.mk [.HardNewLine, .HardNewLine] 1 LineMetadata.new
      (some LineMetadata.new)).tokens = true :=
  claim_C1_theorem [.HardNewLine, .HardNewLine, .HardNewLine] _ (by decide)

/-- Claim C2, counterexample to the statement as given: after the operation
sequence `push (DirectPart "x")`, `insert_trailing_blankline`, the index is 1
(non-zero) but the token at position 1 is `DirectPart "x"`, not a
`HardNewLine` — `insert_trailing_blankline` called before the first newline
breaks the invariant (the source's own `debug_assert_newlines` would abort
here in a debug build). -/
theorem claim_C2_counterexample :
    (Intermediary.new.push (.DirectPart "x")).bind
        (fun s => s.insert_trailing_blankline .ClassOrModule)
      = some ⟨[.HardNewLine, .DirectPart "x"], 1, LineMetadata.new, none⟩
    ∧ (1 : Nat) ≠ 0
    ∧ ¬([ConcreteLineToken.HardNewLine, ConcreteLineToken.DirectPart "x"][1]?
        = some ConcreteLineToken.HardNewLine) :=
  ⟨by decide, by decide, by decide⟩

/-- Claim C2 (amended): after any sequence of pushes from the initial state,
whenever `index_of_last_hard_newline` is non-zero, the token at that position
is a `HardNewLine`. -/
theorem claim_C2_theorem (ts : List ConcreteLineToken) (s : Intermediary)
    (h : Intermediary.new.pushAll ts = some s)
    (h0 : s.index_of_last_hard_newline ≠ 0) :
    s.tokens[s.index_of_last_hard_newline]? = some ConcreteLineToken.HardNewLine := by
  obtain ⟨s', h', hw'⟩ := pushAll_wf ts Intermediary.new (by decide)
  rw [h] at h'
  cases Option.some.inj h'
  exact wf_idx_nonzero _ hw' h0

/-- Claim C2, witness: after pushing `DirectPart "x"` then `HardNewLine`, the
index is 1 and addresses the `HardNewLine`. -/
theorem claim_C2_witness :
    (Intermediary.mk [.DirectPart "x", .HardNewLine] 1 LineMetadata.new
        (some LineMetadata.new)).tokens[
      (Intermediary.mk [.DirectPart "x", .HardNewLine] 1 LineMetadata.new
        (some LineMetadata.new)).index_of_last_hard_newline]?
      = some ConcreteLineToken.HardNewLine :=
  claim_C2_theorem [.DirectPart "x", .HardNewLine] _ (by decide) (by decide)

/-- Claim C3, counterexample to the statement as given: from the reachable
state obtained by pushing `DirectPart "x"`, `Comma`, `Space`, `HardNewLine`
and then calling `clear_breakable_garbage` (which strips the comma and the
space, shrinking the buffer to 2 tokens while the newline index stays 3),
pushing `ClassKeyword` panics: the blank-line insertion calls `Vec::insert`
at index 3 of a buffer of length 2. -/
theorem claim_C3_counterexample :
    ((Intermediary.new.pushAll [.DirectPart "x", .Comma, .Space, .HardNewLine]).bind
        Intermediary.clear_breakable_garbage)
      = some ⟨[.DirectPart "x", .HardNewLine], 3, LineMetadata.new, some LineMetadata.new⟩
    ∧ Intermediary.push
        ⟨[.DirectPart "x", .HardNewLine], 3, LineMetadata.new, some LineMetadata.new⟩
        .ClassKeyword = none := by
  constructor
  · have h1 : Intermediary.new.pushAll [.DirectPart "x", .Comma, .Space, .HardNewLine]
        = some ⟨[.DirectPart "x", .Comma, .Space, .HardNewLine], 3,
            LineMetadata.new, some LineMetadata.new⟩ := by decide
    rw [h1]
    show Intermediary.clear_breakable_garbage
        ⟨[.DirectPart "x", .Comma, .Space, .HardNewLine], 3,
          LineMetadata.new, some LineMetadata.new⟩ = _
    unfold Intermediary.clear_breakable_garbage
    rw [clearLoop_step [.DirectPart "x", .Comma, .Space, .HardNewLine]
          [.DirectPart "x", .Comma, .HardNewLine] .Space
          (by decide) (by decide) (by decide) (by decide),
        clearLoop_step [.DirectPart "x", .Comma, .HardNewLine]
          [.DirectPart "x", .HardNewLine] .Comma
          (by decide) (by decide) (by decide) (by decide),
        clearLoop_stop [.DirectPart "x", .HardNewLine] (.DirectPart "x")
          (by decide) (by decide) (by decide)]
    rfl
  · decide

/-- Claim C3 (amended): `push` never fails on any state reachable by pushes
alone — pushing a whole stream from the initial state always succeeds, and
from any push-reachable state every further push succeeds. (States reached
through `clear_breakable_garbage` are excluded: they can leave the newline
index beyond the buffer, making a later insertion panic.) -/
theorem claim_C3_theorem :
    (∀ ts : List ConcreteLineToken, ∃ s, Intermediary.new.pushAll ts = some s) ∧
    (∀ (ts : List ConcreteLineToken) (s : Intermediary) (t : ConcreteLineToken),
      Intermediary.new.pushAll ts = some s → ∃ s', s.push t = some s') := by
  constructor
  · intro ts
    obtain ⟨s, h, _⟩ := pushAll_wf ts Intermediary.new (by decide)
    exact ⟨s, h⟩
  · intro ts s t h
    obtain ⟨s', h', hw'⟩ := pushAll_wf ts Intermediary.new (by decide)
    rw [h] at h'
    cases Option.some.inj h'
    obtain ⟨s2, h2, _⟩ := push_wf _ t hw'
    exact ⟨s2, h2⟩

/-- Claim C3, witness: pushing `ClassKeyword` right after the first
`HardNewLine` of the stream (the index is 0 there) completes without failure
under release semantics. -/
theorem claim_C3_witness :
    Intermediary.new.pushAll [.HardNewLine]
      = some ⟨[.HardNewLine], 0, LineMetadata.new, some LineMetadata.new⟩
    ∧ (Intermediary.push ⟨[.HardNewLine], 0, LineMetadata.new, some LineMetadata.new⟩
        .ClassKeyword).isSome = true := by
  constructor
  · decide
  · obtain ⟨s', hs'⟩ := claim_C3_theorem.2 [.HardNewLine]
      ⟨[.HardNewLine], 0, LineMetadata.new, some LineMetadata.new⟩ .ClassKeyword (by decide)
    rw [hs']
    rfl

/-- Claim C6, counterexample to the statement as given: on the reachable state
with buffer `[DirectPart "x"]` and index 0 (obtained by pushing
`DirectPart "x"` from the initial state), a first `insert_trailing_blankline`
inserts a `HardNewLine` at index 0 and moves the index to 1, and the
immediately following second call is not a no-op: it inserts again, because
the slot the index now addresses holds `DirectPart "x"`, not a newline, so
neither already-blank shape matches. -/
theorem claim_C6_counterexample :
    Intermediary.new.push (.DirectPart "x")
      = some ⟨[.DirectPart "x"], 0, LineMetadata.new, none⟩
    ∧ Intermediary.insert_trailing_blankline
        ⟨[.DirectPart "x"], 0, LineMetadata.new, none⟩ .ClassOrModule
      = some ⟨[.HardNewLine, .DirectPart "x"], 1, LineMetadata.new, none⟩
    ∧ Intermediary.insert_trailing_blankline
        ⟨[.HardNewLine, .DirectPart "x"], 1, LineMetadata.new, none⟩ .ClassOrModule
      = some ⟨[.HardNewLine, .HardNewLine, .DirectPart "x"], 2, LineMetadata.new, none⟩ :=
  ⟨by decide, by decide, by decide⟩

/-- Claim C6 (amended): `insert_trailing_blankline` is idempotent from every
state in which the remembered index addresses a `HardNewLine` (the newline
invariant): whatever a first call does — inserting or recognizing an
already-blank shape — an immediately following second call is a no-op, so two
consecutive calls insert at most one newline in total. -/
theorem claim_C6_theorem (s s1 : Intermediary) (r r' : BlanklineReason)
    (hidx : s.tokens[s.index_of_last_hard_newline]? = some ConcreteLineToken.HardNewLine)
    (h1 : s.insert_trailing_blankline r = some s1) :
    s1.insert_trailing_blankline r' = some s1 := by
  by_cases hcond : ((optIsHNL (getWrapSub s.tokens s.index_of_last_hard_newline 2)
        && optIsIndent (getWrapSub s.tokens s.index_of_last_hard_newline 1)
        && optIsHNL (s.tokens[s.index_of_last_hard_newline]?))
      || (optIsHNL (getWrapSub s.tokens s.index_of_last_hard_newline 1)
        && optIsHNL (s.tokens[s.index_of_last_hard_newline]?))) = true
  · rw [insertTB_noop s r hcond] at h1
    cases Option.some.inj h1
    exact insertTB_noop s r' hcond
  · have hcf := Bool.eq_false_iff.2 hcond
    obtain ⟨A, B, hdec, hlen, _⟩ := tokens_decomp s.tokens s.index_of_last_hard_newline _ hidx
    have hins : vecInsert s.tokens s.index_of_last_hard_newline ConcreteLineToken.HardNewLine
        = some (A ++ ConcreteLineToken.HardNewLine :: ConcreteLineToken.HardNewLine :: B) := by
      rw [hdec, ← hlen]
      exact vecInsert_append A (ConcreteLineToken.HardNewLine :: B) _
    rw [insertTB_insert s r hcf, hins] at h1
    simp only [Option.map_some'] at h1
    cases Option.some.inj h1
    apply insertTB_noop
    have hg1 : optIsHNL (getWrapSub
        (A ++ ConcreteLineToken.HardNewLine :: ConcreteLineToken.HardNewLine :: B)
        (s.index_of_last_hard_newline + 1) 1) = true := by
      unfold getWrapSub
      rw [if_neg (by omega)]
      have e : s.index_of_last_hard_newline + 1 - 1 = A.length := by omega
      rw [e, getElem_after_append A _ (ConcreteLineToken.HardNewLine :: B)]
      rfl
    have hg0 : optIsHNL ((A ++ ConcreteLineToken.HardNewLine
        :: ConcreteLineToken.HardNewLine :: B)[s.index_of_last_hard_newline + 1]?) = true := by
      rw [← hlen, getElem_cons2_mid A _ _ B]
      rfl
    show ((optIsHNL (getWrapSub
          (A ++ ConcreteLineToken.HardNewLine :: ConcreteLineToken.HardNewLine :: B)
          (s.index_of_last_hard_newline + 1) 2)
        && optIsIndent (getWrapSub
          (A ++ ConcreteLineToken.HardNewLine :: ConcreteLineToken.HardNewLine :: B)
          (s.index_of_last_hard_newline + 1) 1)
        && optIsHNL ((A ++ ConcreteLineToken.HardNewLine
          :: ConcreteLineToken.HardNewLine :: B)[s.index_of_last_hard_newline + 1]?))
      || (optIsHNL (getWrapSub
          (A ++ ConcreteLineToken.HardNewLine :: ConcreteLineToken.HardNewLine :: B)
          (s.index_of_last_hard_newline + 1) 1)
        && optIsHNL ((A ++ ConcreteLineToken.HardNewLine
          :: ConcreteLineToken.HardNewLine :: B)[s.index_of_last_hard_newline + 1]?))) = true
    rw [hg1, hg0]
    simp

/-- Claim C6, witness: from the state with buffer `[HardNewLine]` and index 0,
a first call inserts (buffer becomes `[HardNewLine, HardNewLine]`, index 1)
and the second call is a no-op. -/
theorem claim_C6_witness :
    Intermediary.insert_trailing_blankline
        ⟨[.HardNewLine, .HardNewLine], 1, LineMetadata.new, none⟩ .ClassOrModule
      = some ⟨[.HardNewLine, .HardNewLine], 1, LineMetadata.new, none⟩ :=
  claim_C6_theorem ⟨[.HardNewLine], 0, LineMetadata.new, none⟩ _ .ClassOrModule .ClassOrModule
    (by decide) (by decide)

/-- Claim C10 (confirmed): after every push of a `HardNewLine` — appended or
suppressed — the index addresses the buffer's last slot; and after any
push-only run from the initial state, no token strictly after the index is a
`HardNewLine`. -/
theorem claim_C10_theorem :
    (∀ (s s' : Intermediary), s.push .HardNewLine = some s' →
      s'.index_of_last_hard_newline + 1 = s'.tokens.length) ∧
    (∀ (ts : List ConcreteLineToken) (s : Intermediary),
      Intermediary.new.pushAll ts = some s →
      allNonNL (s.tokens.drop (s.index_of_last_hard_newline + 1)) = true) := by
  constructor
  · intro s s' h
    have h2 : (if s.requireCond = true then s.insert_trailing_blankline .EndOfRequireBlock
        else some s).map Intermediary.newlineClose = some s' := h
    cases ho : (if s.requireCond = true then s.insert_trailing_blankline .EndOfRequireBlock
        else some s) with
    | none => rw [ho] at h2; simp at h2
    | some t =>
      rw [ho] at h2
      simp only [Option.map_some'] at h2
      rw [← Option.some.inj h2]
      exact newlineClose_idx t
  · intro ts s h
    obtain ⟨s', h', hw'⟩ := pushAll_wf ts Intermediary.new (by decide)
    rw [h] at h'
    cases Option.some.inj h'
    exact wf_drop _ hw'

/-- Claim C10, witness: the first `HardNewLine` pushed from the initial state
lands at slot 0 with the index addressing it, and after pushing
`DirectPart "x"` then `HardNewLine` nothing after the index is a newline. -/
theorem claim_C10_witness :
    (Intermediary.mk [.HardNewLine] 0 LineMetadata.new
        (some LineMetadata.new)).index_of_last_hard_newline + 1
      = (Intermediary.mk [.HardNewLine] 0 LineMetadata.new
        (some LineMetadata.new)).tokens.length
    ∧ allNonNL ((Intermediary.mk [.DirectPart "x", .HardNewLine] 1 LineMetadata.new
        (some LineMetadata.new)).tokens.drop
        ((Intermediary.mk [.DirectPart "x", .HardNewLine] 1 LineMetadata.new
          (some LineMetadata.new)).index_of_last_hard_newline + 1)) = true := by
  constructor
  · exact claim_C10_theorem.1 Intermediary.new _ (by decide)
  · exact claim_C10_theorem.2 [.DirectPart "x", .HardNewLine] _ (by decide)

/-- Claim C4 (confirmed): on a `HardNewLine`, the `EndOfRequireBlock`
insertion runs exactly when the pre-swap current metadata lacks
`has_require` while the pre-swap previous metadata has it — the metadata swap
happens only afterwards, inside `newlineClose`; and on the spec's three-line
require stream exactly one blank line appears after the second `require`
line and none between the two `require` lines. -/
theorem claim_C4_theorem :
    (∀ (s : Intermediary) (p : LineMetadata), s.previous_line_metadata = some p →
      ((!s.current_line_metadata.has_require && p.has_require) = false →
        s.push .HardNewLine = some s.newlineClose) ∧
      ((!s.current_line_metadata.has_require && p.has_require) = true →
        s.push .HardNewLine
          = (s.insert_trailing_blankline .EndOfRequireBlock).map Intermediary.newlineClose)) ∧
    (∀ s : Intermediary, s.previous_line_metadata = none →
      s.push .HardNewLine = some s.newlineClose) ∧
    ((Intermediary.new.pushAll
        [.Indent 0, .DirectPart "require", .DirectPart "\"a\"", .HardNewLine,
         .Indent 0, .DirectPart "require", .DirectPart "\"b\"", .HardNewLine,
         .Indent 0, .DirectPart "x = 1", .HardNewLine]).map Intermediary.tokens
      = some [.Indent 0, .DirectPart "require", .DirectPart "\"a\"", .HardNewLine,
          .Indent 0, .DirectPart "require", .DirectPart "\"b\"", .HardNewLine, .HardNewLine,
          .Indent 0, .DirectPart "x = 1", .HardNewLine]) := by
  refine ⟨?_, ?_, by decide⟩
  · intro s p hp
    have hrc : s.requireCond = (!s.current_line_metadata.has_require && p.has_require) := by
      unfold Intermediary.requireCond
      rw [hp]
    constructor
    · intro hc
      show (if s.requireCond = true then s.insert_trailing_blankline .EndOfRequireBlock
          else some s).map Intermediary.newlineClose = some s.newlineClose
      rw [if_neg (by rw [hrc, hc]; exact Bool.false_ne_true)]
      rfl
    · intro hc
      show (if s.requireCond = true then s.insert_trailing_blankline .EndOfRequireBlock
          else some s).map Intermediary.newlineClose
        = (s.insert_trailing_blankline .EndOfRequireBlock).map Intermediary.newlineClose
      rw [if_pos (by rw [hrc, hc])]
  · intro s hp
    have hrc : s.requireCond = false := by
      unfold Intermediary.requireCond
      rw [hp]
    show (if s.requireCond = true then s.insert_trailing_blankline .EndOfRequireBlock
        else some s).map Intermediary.newlineClose = some s.newlineClose
    rw [if_neg (by rw [hrc]; exact Bool.false_ne_true)]
    rfl

/-- Claim C4, witness: a state whose previous line had a line-initial
`require` while the current one does not; the insertion pipeline runs. -/
theorem claim_C4_witness :
    Intermediary.push ⟨[.DirectPart "r", .HardNewLine], 1, LineMetadata.new,
        some LineMetadata.new.set_has_require⟩ .HardNewLine
      = (Intermediary.insert_trailing_blankline
          ⟨[.DirectPart "r", .HardNewLine], 1, LineMetadata.new,
            some LineMetadata.new.set_has_require⟩ .EndOfRequireBlock).map
          Intermediary.newlineClose :=
  (claim_C4_theorem.1 ⟨[.DirectPart "r", .HardNewLine], 1, LineMetadata.new,
      some LineMetadata.new.set_has_require⟩ LineMetadata.new.set_has_require rfl).2
    (by decide)

/-- Claim C5 (confirmed): on a `HardNewLine`, once the require-block guard is
known not to fire (so the index is set to the pre-push buffer length), the
push suppresses the newline exactly when the two slots preceding that index
both hold `HardNewLine` — then the buffer is unchanged and the index moves to
the last slot — and appends the newline otherwise. -/
theorem claim_C5_theorem (s s' : Intermediary)
    (hrc : s.requireCond = false)
    (h : s.push .HardNewLine = some s') :
    ((2 ≤ s.tokens.length
        ∧ optIsHNL (s.tokens[s.tokens.length - 2]?) = true
        ∧ optIsHNL (s.tokens[s.tokens.length - 1]?) = true) →
      s'.tokens = s.tokens ∧ s'.index_of_last_hard_newline = s.tokens.length - 1) ∧
    (¬(2 ≤ s.tokens.length
        ∧ optIsHNL (s.tokens[s.tokens.length - 2]?) = true
        ∧ optIsHNL (s.tokens[s.tokens.length - 1]?) = true) →
      s'.tokens = s.tokens ++ [.HardNewLine]
        ∧ s'.index_of_last_hard_newline = s.tokens.length) := by
  have hs' : s' = s.newlineClose := by
    have h2 : (if s.requireCond = true then s.insert_trailing_blankline .EndOfRequireBlock
        else some s).map Intermediary.newlineClose = some s' := h
    rw [if_neg (by rw [hrc]; exact Bool.false_ne_true)] at h2
    simp only [Option.map_some'] at h2
    exact (Option.some.inj h2).symm
  subst hs'
  unfold Intermediary.newlineClose
  constructor
  · rintro ⟨hl2, ha, hb⟩
    rw [if_pos hl2, if_pos (by rw [ha, hb]; rfl)]
    exact ⟨rfl, rfl⟩
  · intro hn
    by_cases hl2 : 2 ≤ s.tokens.length
    · have hsup : ¬((optIsHNL (s.tokens[s.tokens.length - 2]?)
          && optIsHNL (s.tokens[s.tokens.length - 1]?)) = true) := by
        intro hb
        simp only [Bool.and_eq_true] at hb
        exact hn ⟨hl2, hb.1, hb.2⟩
      rw [if_pos hl2, if_neg hsup]
      exact ⟨rfl, rfl⟩
    · rw [if_neg hl2]
      exact ⟨rfl, rfl⟩

/-- Claim C5, witness: a buffer already ending in two newlines suppresses the
pushed `HardNewLine` and repoints the index at the last slot. -/
theorem claim_C5_witness :
    (Intermediary.mk [.HardNewLine, .HardNewLine] 1 LineMetadata.new
        (some LineMetadata.new)).tokens
      = [ConcreteLineToken.HardNewLine, ConcreteLineToken.HardNewLine]
    ∧ (Intermediary.mk [.HardNewLine, .HardNewLine] 1 LineMetadata.new
        (some LineMetadata.new)).index_of_last_hard_newline
      = ([ConcreteLineToken.HardNewLine, ConcreteLineToken.HardNewLine] :
          List ConcreteLineToken).length - 1 := by
  have h := (claim_C5_theorem
    ⟨[.HardNewLine, .HardNewLine], 1, LineMetadata.new, some LineMetadata.new⟩
    ⟨[.HardNewLine, .HardNewLine], 1, LineMetadata.new, some LineMetadata.new⟩
    (by decide) (by decide)).1 ⟨by decide, by decide, by decide⟩
  exact ⟨h.1, h.2⟩

/-- `handle_conditional` always sets `has_conditional` on the current
metadata, whatever else it does. -/
theorem handle_conditional_cur (s : Intermediary) (c : String) (t : Intermediary)
    (h : s.handle_conditional c = some t) :
    t.current_line_metadata = s.current_line_metadata.set_has_conditional := by
  rcases Option.eq_none_or_eq_some s.previous_line_metadata with hp | ⟨p, hp⟩
  · have he : s.handle_conditional c = some
        { s with current_line_metadata := s.current_line_metadata.set_has_conditional } := by
      unfold Intermediary.handle_conditional
      rw [hp]
    rw [he] at h
    cases Option.some.inj h
    rfl
  · by_cases hg : (p.wants_spacer_for_conditional && c == "if") = true
    · have he : s.handle_conditional c = Intermediary.insert_trailing_blankline
          { s with current_line_metadata := s.current_line_metadata.set_has_conditional }
          .Conditional := by
        unfold Intermediary.handle_conditional
        rw [hp]
        show (if (p.wants_spacer_for_conditional && c == "if") = true then _ else _) = _
        rw [if_pos hg]
      rw [he] at h
      exact (insertTB_fields _ _ _ h).1
    · have he : s.handle_conditional c = some
          { s with current_line_metadata := s.current_line_metadata.set_has_conditional } := by
        unfold Intermediary.handle_conditional
        rw [hp]
        show (if (p.wants_spacer_for_conditional && c == "if") = true then _ else _) = _
        rw [if_neg hg]
      rw [he] at h
      cases Option.some.inj h
      rfl

/-- Claim C7 (confirmed): when the previous line wants a conditional spacer,
pushing `ConditionalKeyword c` runs the blank-line guard exactly when `c` is
`"if"` — for any other contents the token is appended with no other buffer
change — and every push of a `ConditionalKeyword` sets `has_conditional` on
the current metadata; concretely, after an `end if` line, pushing
`ConditionalKeyword "if"` yields a blank line while
`ConditionalKeyword "elsif"` does not. -/
theorem claim_C7_theorem :
    (∀ (s : Intermediary) (p : LineMetadata) (c : String) (s' : Intermediary),
      s.previous_line_metadata = some p →
      p.wants_spacer_for_conditional = true →
      s.push (.ConditionalKeyword c) = some s' →
      s'.current_line_metadata.has_conditional = true ∧
      (c ≠ "if" → s'.tokens = s.tokens ++ [.ConditionalKeyword c]) ∧
      (c = "if" → ∃ t, Intermediary.insert_trailing_blankline
          { s with current_line_metadata := s.current_line_metadata.set_has_conditional }
          .Conditional = some t
        ∧ s'.tokens = t.tokens ++ [.ConditionalKeyword c])) ∧
    (∀ (s s' : Intermediary) (c : String), s.push (.ConditionalKeyword c) = some s' →
      s'.current_line_metadata.has_conditional = true) ∧
    ((Intermediary.new.pushAll
        [.End, .ConditionalKeyword "if", .HardNewLine, .ConditionalKeyword "if"]).map
        Intermediary.tokens
      = some [.End, .ConditionalKeyword "if", .HardNewLine, .HardNewLine,
          .ConditionalKeyword "if"]) ∧
    ((Intermediary.new.pushAll
        [.End, .ConditionalKeyword "if", .HardNewLine, .ConditionalKeyword "elsif"]).map
        Intermediary.tokens
      = some [.End, .ConditionalKeyword "if", .HardNewLine, .ConditionalKeyword "elsif"]) := by
  refine ⟨?_, ?_, by decide, by decide⟩
  · intro s p c s' hp hws h
    have hpush : (s.handle_conditional c).map
        (fun u => { u with tokens := u.tokens ++ [ConcreteLineToken.ConditionalKeyword c] })
        = some s' := h
    by_cases hcif : c = "if"
    · subst hcif
      have he : s.handle_conditional "if" = Intermediary.insert_trailing_blankline
          { s with current_line_metadata := s.current_line_metadata.set_has_conditional }
          .Conditional := by
        unfold Intermediary.handle_conditional
        rw [hp]
        show (if (p.wants_spacer_for_conditional && (("if" : String) == "if")) = true
              then _ else _) = _
        rw [if_pos (by rw [hws]; rfl)]
      rw [he] at hpush
      cases hi : Intermediary.insert_trailing_blankline
          { s with current_line_metadata := s.current_line_metadata.set_has_conditional }
          .Conditional with
      | none => rw [hi] at hpush; simp at hpush
      | some t =>
        rw [hi] at hpush
        simp only [Option.map_some'] at hpush
        cases Option.some.inj hpush
        refine ⟨?_, fun hne => absurd rfl hne, fun _ => ⟨t, rfl, rfl⟩⟩
        show t.current_line_metadata.has_conditional = true
        rw [(insertTB_fields _ _ _ hi).1]
        rfl
    · have hbeq : (c == "if") = false := by
        rw [beq_eq_false_iff_ne]
        exact hcif
      have he : s.handle_conditional c = some
          { s with current_line_metadata := s.current_line_metadata.set_has_conditional } := by
        unfold Intermediary.handle_conditional
        rw [hp]
        show (if (p.wants_spacer_for_conditional && (c == "if")) = true then _ else _) = _
        rw [if_neg (by rw [hbeq]; simp)]
      rw [he] at hpush
      simp only [Option.map_some'] at hpush
      cases Option.some.inj hpush
      exact ⟨rfl, fun _ => rfl, fun hceq => absurd hceq hcif⟩
  · intro s s' c h
    have hpush : (s.handle_conditional c).map
        (fun u => { u with tokens := u.tokens ++ [ConcreteLineToken.ConditionalKeyword c] })
        = some s' := h
    cases hc : s.handle_conditional c with
    | none => rw [hc] at hpush; simp at hpush
    | some t =>
      rw [hc] at hpush
      simp only [Option.map_some'] at hpush
      cases Option.some.inj hpush
      show t.current_line_metadata.has_conditional = true
      rw [handle_conditional_cur s c t hc]
      rfl

/-- Claim C7, witness: after an `end if` line, pushing
`ConditionalKeyword "elsif"` sets `has_conditional` and appends the token
with no blank line. -/
theorem claim_C7_witness :
    (Intermediary.mk
        [.End, .ConditionalKeyword "if", .HardNewLine, .ConditionalKeyword "elsif"] 2
        LineMetadata.new.set_has_conditional
        (some (LineMetadata.new.set_has_end.set_has_conditional))
      ).current_line_metadata.has_conditional = true
    ∧ (Intermediary.mk
        [.End, .ConditionalKeyword "if", .HardNewLine, .ConditionalKeyword "elsif"] 2
        LineMetadata.new.set_has_conditional
        (some (LineMetadata.new.set_has_end.set_has_conditional))).tokens
      = [ConcreteLineToken.End, .ConditionalKeyword "if", .HardNewLine]
        ++ [.ConditionalKeyword "elsif"] := by
  have h := claim_C7_theorem.1
    ⟨[.End, .ConditionalKeyword "if", .HardNewLine], 2, LineMetadata.new,
      some (LineMetadata.new.set_has_end.set_has_conditional)⟩
    (LineMetadata.new.set_has_end.set_has_conditional) "elsif"
    ⟨[.End, .ConditionalKeyword "if", .HardNewLine, .ConditionalKeyword "elsif"], 2,
      LineMetadata.new.set_has_conditional,
      some (LineMetadata.new.set_has_end.set_has_conditional)⟩
    rfl (by decide) (by decide)
  exact ⟨h.1, h.2.1 (by decide)⟩

/-- Claim C8 (confirmed): pushing `ClassKeyword` or `ModuleKeyword` runs the
`ClassOrModule` blank-line guard exactly when a previous line's metadata
exists and its `gets_indented` flag is false (otherwise the token is simply
appended); pushing `Indent depth` marks the previous line `gets_indented`
exactly when both depths are recorded and the previous line's depth is
strictly below `depth`; concretely, a class opener right after a deeper
`Indent` gets no blank line, while one at the same depth does. -/
theorem claim_C8_theorem :
    (∀ (s : Intermediary) (p : LineMetadata) (s' : Intermediary),
      s.previous_line_metadata = some p →
      s.push .ClassKeyword = some s' →
      (p.gets_indented = false → ∃ t, s.insert_trailing_blankline .ClassOrModule = some t
        ∧ s'.tokens = t.tokens ++ [.ClassKeyword]) ∧
      (p.gets_indented = true → s'.tokens = s.tokens ++ [.ClassKeyword])) ∧
    (∀ (s : Intermediary) (p : LineMetadata) (s' : Intermediary),
      s.previous_line_metadata = some p →
      s.push .ModuleKeyword = some s' →
      (p.gets_indented = false → ∃ t, s.insert_trailing_blankline .ClassOrModule = some t
        ∧ s'.tokens = t.tokens ++ [.ModuleKeyword]) ∧
      (p.gets_indented = true → s'.tokens = s.tokens ++ [.ModuleKeyword])) ∧
    (∀ (s s' : Intermediary), s.previous_line_metadata = none →
      s.push .ClassKeyword = some s' → s'.tokens = s.tokens ++ [.ClassKeyword]) ∧
    (∀ (s : Intermediary) (d : Nat) (s' : Intermediary) (p : LineMetadata),
      s.previous_line_metadata = some p →
      s.push (.Indent d) = some s' →
      s'.previous_line_metadata
        = some (if LineMetadata.indent_level_increases_between p
                  (s.current_line_metadata.observe_indent_level d) then
                  p.set_gets_indented
                else p) ∧
      (∀ a, p.indent_level = some a →
        (LineMetadata.indent_level_increases_between p
          (s.current_line_metadata.observe_indent_level d) = true ↔ a < d)) ∧
      (p.indent_level = none →
        LineMetadata.indent_level_increases_between p
          (s.current_line_metadata.observe_indent_level d) = false)) ∧
    ((Intermediary.new.pushAll
        [.Indent 0, .DirectPart "foo", .HardNewLine, .Indent 2, .ClassKeyword]).map
        Intermediary.tokens
      = some [.Indent 0, .DirectPart "foo", .HardNewLine, .Indent 2, .ClassKeyword]) ∧
    ((Intermediary.new.pushAll
        [.Indent 0, .DirectPart "foo", .HardNewLine, .Indent 0, .ClassKeyword]).map
        Intermediary.tokens
      = some [.Indent 0, .DirectPart "foo", .HardNewLine, .HardNewLine, .Indent 0,
          .ClassKeyword]) := by
  refine ⟨?_, ?_, ?_, ?_, by decide, by decide⟩
  · intro s p s' hp h
    have hpush : (s.handle_class_or_module).map
        (fun u => { u with tokens := u.tokens ++ [ConcreteLineToken.ClassKeyword] })
        = some s' := h
    constructor
    · intro hgi
      have he : s.handle_class_or_module = s.insert_trailing_blankline .ClassOrModule := by
        unfold Intermediary.handle_class_or_module
        rw [hp]
        show (if (!p.gets_indented) = true then _ else _) = _
        rw [if_pos (by rw [hgi]; rfl)]
      rw [he] at hpush
      cases hi : s.insert_trailing_blankline .ClassOrModule with
      | none => rw [hi] at hpush; simp at hpush
      | some t =>
        rw [hi] at hpush
        simp only [Option.map_some'] at hpush
        cases Option.some.inj hpush
        exact ⟨t, rfl, rfl⟩
    · intro hgi
      have he : s.handle_class_or_module = some s := by
        unfold Intermediary.handle_class_or_module
        rw [hp]
        show (if (!p.gets_indented) = true then _ else _) = _
        rw [if_neg (by rw [hgi]; simp)]
      rw [he] at hpush
      simp only [Option.map_some'] at hpush
      cases Option.some.inj hpush
      rfl
  · intro s p s' hp h
    have hpush : (s.handle_class_or_module).map
        (fun u => { u with tokens := u.tokens ++ [ConcreteLineToken.ModuleKeyword] })
        = some s' := h
    constructor
    · intro hgi
      have he : s.handle_class_or_module = s.insert_trailing_blankline .ClassOrModule := by
        unfold Intermediary.handle_class_or_module
        rw [hp]
        show (if (!p.gets_indented) = true then _ else _) = _
        rw [if_pos (by rw [hgi]; rfl)]
      rw [he] at hpush
      cases hi : s.insert_trailing_blankline .ClassOrModule with
      | none => rw [hi] at hpush; simp at hpush
      | some t =>
        rw [hi] at hpush
        simp only [Option.map_some'] at hpush
        cases Option.some.inj hpush
        exact ⟨t, rfl, rfl⟩
    · intro hgi
      have he : s.handle_class_or_module = some s := by
        unfold Intermediary.handle_class_or_module
        rw [hp]
        show (if (!p.gets_indented) = true then _ else _) = _
        rw [if_neg (by rw [hgi]; simp)]
      rw [he] at hpush
      simp only [Option.map_some'] at hpush
      cases Option.some.inj hpush
      rfl
  · intro s s' hp h
    have hpush : (s.handle_class_or_module).map
        (fun u => { u with tokens := u.tokens ++ [ConcreteLineToken.ClassKeyword] })
        = some s' := h
    have he : s.handle_class_or_module = some s := by
      unfold Intermediary.handle_class_or_module
      rw [hp]
    rw [he] at hpush
    simp only [Option.map_some'] at hpush
    cases Option.some.inj hpush
    rfl
  · intro s d s' p hp h
    have h2 : some
        { s with
          current_line_metadata := s.current_line_metadata.observe_indent_level d
          previous_line_metadata :=
            match s.previous_line_metadata with
            | some prev =>
              some (if LineMetadata.indent_level_increases_between prev
                      (s.current_line_metadata.observe_indent_level d) then
                      prev.set_gets_indented
                    else prev)
            | none => none
          tokens := s.tokens ++ [.Indent d] } = some s' := h
    cases Option.some.inj h2
    refine ⟨?_, ?_, ?_⟩
    · show (match s.previous_line_metadata with
        | some prev =>
          some (if LineMetadata.indent_level_increases_between prev
                  (s.current_line_metadata.observe_indent_level d) then
                  prev.set_gets_indented
                else prev)
        | none => none)
        = some (if LineMetadata.indent_level_increases_between p
                  (s.current_line_metadata.observe_indent_level d) then
                  p.set_gets_indented
                else p)
      rw [hp]
    · intro a ha
      simp [LineMetadata.indent_level_increases_between, LineMetadata.observe_indent_level, ha]
    · intro ha
      simp [LineMetadata.indent_level_increases_between, LineMetadata.observe_indent_level, ha]

/-- Claim C8, witness: a class opener that is the first statement after a
deeper `Indent` (previous line marked `gets_indented`) is appended with no
blank line before it. -/
theorem claim_C8_witness :
    (Intermediary.mk [.Indent 0, .DirectPart "foo", .HardNewLine, .Indent 2, .ClassKeyword] 2
        (LineMetadata.new.observe_indent_level 2)
        (some ((LineMetadata.new.observe_indent_level 0).set_gets_indented))).tokens
      = [ConcreteLineToken.Indent 0, .DirectPart "foo", .HardNewLine, .Indent 2]
        ++ [.ClassKeyword] :=
  (claim_C8_theorem.1
    ⟨[.Indent 0, .DirectPart "foo", .HardNewLine, .Indent 2], 2,
      LineMetadata.new.observe_indent_level 2,
      some ((LineMetadata.new.observe_indent_level 0).set_gets_indented)⟩
    ((LineMetadata.new.observe_indent_level 0).set_gets_indented)
    ⟨[.Indent 0, .DirectPart "foo", .HardNewLine, .Indent 2, .ClassKeyword], 2,
      LineMetadata.new.observe_indent_level 2,
      some ((LineMetadata.new.observe_indent_level 0).set_gets_indented)⟩
    rfl (by decide)).2 (by decide)

/-- Claim C9 (confirmed): `clear_breakable_garbage` strips exactly the run of
single-line-breakable filler sitting right before the closing token,
stopping at the first non-filler token and leaving everything else
unchanged. -/
theorem claim_C9_theorem (s : Intermediary) (P : List ConcreteLineToken)
    (p : ConcreteLineToken) (G : List ConcreteLineToken) (c : ConcreteLineToken)
    (hs : s.tokens = (P ++ [p]) ++ G ++ [c])
    (hp : p.is_single_line_breakable_garbage = false)
    (hG : ∀ g ∈ G, g.is_single_line_breakable_garbage = true) :
    s.clear_breakable_garbage = some { s with tokens := (P ++ [p]) ++ [c] } := by
  unfold Intermediary.clear_breakable_garbage
  rw [hs, clearLoop_strip G P p c hp hG]
  rfl

/-- Claim C9, witness: the spec's example — on a buffer ending
`[Comma, Space, DirectPart "", CloseDelimiter]` the cleanup removes exactly
the comma, the space and the empty fragment, leaving the closing delimiter
right after the preceding content. -/
theorem claim_C9_witness :
    Intermediary.clear_breakable_garbage
        ⟨[.DirectPart "x", .Comma, .Space, .DirectPart "", .Other ")"], 0,
          LineMetadata.new, none⟩
      = some ⟨[.DirectPart "x", .Other ")"], 0, LineMetadata.new, none⟩ :=
  claim_C9_theorem
    ⟨[.DirectPart "x", .Comma, .Space, .DirectPart "", .Other ")"], 0, LineMetadata.new, none⟩
    [] (.DirectPart "x") [.Comma, .Space, .DirectPart ""] (.Other ")")
    (by decide) (by decide) (by decide)

end Rubyfmt
